import Mathlib

/-!
Shallow embedding of the core of `app/update_supplier_invoices.py` (eFatura
supplier-invoice synchronisation into an 18-column spreadsheet), together with
proofs about the embedded functions.

Conventions used throughout:
* Python strings are Lean `String`s; helper functions (`pyStrip`, `pyTake`,
  `pyUpper`, `pyLower`, string sort) are defined on `List Char` so that they
  reduce inside the kernel.
* Python floats are modelled as exact rationals `ℚ`; `round(x, 2)` is modelled
  as round-half-to-even at two decimals (`round2`).
* Python `None` / absent values become `Option`; Python exceptions become
  `Except` or explicit result constructors.
* Spreadsheet cells are `CellVal` (empty / string / number); a worksheet row of
  the 18-column schema is the record `Row`, and a raw sheet (used for the
  schema-migration logic, which works positionally) is a `List (List CellVal)`.
* The network is a parameter: the listing is passed in as extracted
  `(uid, authorized-date)` pairs and the per-document fetch+parse pipeline is a
  function `String → FetchResult`.
-/

namespace EfaturaSync

/-! ## Python string helpers -/

/-- Whitespace recognised by `str.strip()` (ASCII portion). -/
def isPyWs (c : Char) : Bool :=
  c = ' ' || c = '\t' || c = '\n' || c = '\r' || c = '\x0b' || c = '\x0c'

def stripChars (cs : List Char) : List Char :=
  ((cs.dropWhile isPyWs).reverse.dropWhile isPyWs).reverse

/-- Model of Python `str.strip()`. -/
def pyStrip (s : String) : String := ⟨stripChars s.data⟩

/-- Model of Python slicing `s[:n]`. -/
def pyTake (n : Nat) (s : String) : String := ⟨s.data.take n⟩

/-- Model of Python `str.upper()` (ASCII). -/
def pyUpper (s : String) : String := ⟨s.data.map Char.toUpper⟩

/-- Model of Python `str.lower()` (ASCII). -/
def pyLower (s : String) : String := ⟨s.data.map Char.toLower⟩

/-- Lexicographic comparison of char lists by code point (Python `<=` on str). -/
def charListLe : List Char → List Char → Bool
  | [], _ => true
  | _ :: _, [] => false
  | a :: as, b :: bs =>
    if a.toNat < b.toNat then true
    else if b.toNat < a.toNat then false
    else charListLe as bs

def pyStrLe (a b : String) : Bool := charListLe a.data b.data

/-- Insertion sort used to model Python `sorted(...)` on strings. -/
def insertSorted (x : String) : List String → List String
  | [] => [x]
  | y :: ys => if pyStrLe x y then x :: y :: ys else y :: insertSorted x ys

def sortStrings (l : List String) : List String := l.foldr insertSorted []

/-- First-occurrence de-duplication (Python dict-key insertion order). -/
def firstDedupAux : List String → List String → List String
  | [], _ => []
  | x :: xs, seen =>
    if x ∈ seen then firstDedupAux xs seen else x :: firstDedupAux xs (x :: seen)

def dictKeys (l : List String) : List String := firstDedupAux l []

/-! ## XML sanitisation (`sanitize_xml_text`, source lines 257-283) -/

/-- Characters removed by `_INVALID_XML_CHARS_RE`:
`[\x00-\x08\x0B\x0C\x0E-\x1F]`. -/
def isIllegalXmlChar (c : Char) : Bool :=
  c.toNat ≤ 0x08 || c.toNat = 0x0B || c.toNat = 0x0C ||
    (0x0E ≤ c.toNat && c.toNat ≤ 0x1F)

def isAsciiDigit (c : Char) : Bool := '0' ≤ c && c ≤ '9'

def isHexDigitChar (c : Char) : Bool :=
  isAsciiDigit c || ('a' ≤ c && c ≤ 'f') || ('A' ≤ c && c ≤ 'F')

/-- Word characters of the regex `\w` (ASCII approximation: letters, digits,
underscore). -/
def isWordChar (c : Char) : Bool := c.isAlphanum || c = '_'

/-- Does the text following an ampersand look like the remainder of an entity?
Mirrors the negative lookahead `(?:#\d+|#x[0-9a-fA-F]+|\w+);` of
`re.sub(r"&(?!(?:#\d+|#x[0-9a-fA-F]+|\w+);)", "&amp;", s)`: a greedy run of
the given character class must be non-empty and be followed immediately by a
semicolon. -/
def entityAfterAmp (cs : List Char) : Bool :=
  match cs with
  | [] => false
  | c :: rest =>
    if c = '#' then
      match rest with
      | [] => false
      | c1 :: r2 =>
        if c1 = 'x' then
          !(r2.takeWhile isHexDigitChar).isEmpty &&
            ((r2.dropWhile isHexDigitChar).head? = some ';')
        else
          !(rest.takeWhile isAsciiDigit).isEmpty &&
            ((rest.dropWhile isAsciiDigit).head? = some ';')
    else
      !(cs.takeWhile isWordChar).isEmpty &&
        ((cs.dropWhile isWordChar).head? = some ';')

/-- Escape bare ampersands (`& -> &amp;`) unless already part of an entity. -/
def escapeAmps : List Char → List Char
  | [] => []
  | c :: rest =>
    if c = '&' then
      if entityAfterAmp rest then c :: escapeAmps rest
      else '&' :: 'a' :: 'm' :: 'p' :: ';' :: escapeAmps rest
    else c :: escapeAmps rest

/-- Trim leading garbage before the first `<` (`lt = s.find("<"); if lt > 0: s = s[lt:]`). -/
def trimToLt (cs : List Char) : List Char :=
  if '<' ∈ cs then cs.dropWhile (fun c => !(c = '<')) else cs

def sanitizeChars (cs : List Char) : List Char :=
  if cs = [] then cs
  else escapeAmps ((trimToLt cs).filter (fun c => !isIllegalXmlChar c))

/-- Model of `sanitize_xml_text`. -/
def sanitize_xml_text (s : String) : String := ⟨sanitizeChars s.data⟩

/-! ## Numeric model: Python `round(x, 2)` on exact rationals -/

/-- Round a rational to the nearest integer, ties to even (Python `round`,
"banker's rounding"; floats are modelled as exact rationals). Implemented with
integer arithmetic on the normalised numerator/denominator. -/
def roundHalfEven (q : ℚ) : ℤ :=
  let n := q.num
  let d : ℤ := (q.den : ℤ)
  let f := Int.ediv n d
  let r := n - f * d
  if 2 * r < d then f
  else if d < 2 * r then f + 1
  else if f % 2 = 0 then f else f + 1

/-- Model of Python `round(x, 2)`. -/
def round2 (q : ℚ) : ℚ := ((roundHalfEven (q * 100) : ℚ)) / 100

/-! ## Line-item derivation (`parse_lines`, source lines 1182-1241)

The XML lookups (`_text_anywhere` + `safe_float` on the various alternate
element names) are abstracted into a record of already-extracted optional
numeric fields; the arithmetic derivation of discount and line total is
embedded verbatim. -/

/-- Fields extracted from one `<Line>` element before the derivation step:
`qty`/`unit` from the quantity node, `unit_price` from Price/UnitPrice/…,
`ext` from PriceExtension/LineExtensionAmount, `net` from NetTotal/LineTotal,
`total` from Total/Amount, `discount_explicit` from Discount/DiscountAmount. -/
structure LineFields where
  qty : Option ℚ := none
  unit : String := ""
  unit_price : Option ℚ := none
  ext : Option ℚ := none
  net : Option ℚ := none
  total : Option ℚ := none
  discount_explicit : Option ℚ := none
  item_code : String := ""
  item_name : String := ""
deriving DecidableEq

/-- One parsed line-item record (the dict appended by `parse_lines`). -/
structure LineRec where
  item_code : String := ""
  item_name : String := ""
  qty : Option ℚ := none
  unit : String := ""
  unit_price : Option ℚ := none
  discount : Option ℚ := none
  line_total : Option ℚ := none
deriving DecidableEq

/-- Derivation part of `parse_lines` for a single line (source lines 1213-1240):
explicit discount wins; else `round(max(unit_price*qty - ext, 0), 2)` when
`ext`, `qty`, `unit_price` are all present; else the same with `net`; line
total is the first present of `net`, `ext`, `total`, else
`round(qty*unit_price, 2)` when both operands are present, else `None`. -/
def parseLine (f : LineFields) : LineRec :=
  let discount : Option ℚ :=
    match f.discount_explicit with
    | some d => some d
    | none =>
      match f.ext, f.qty, f.unit_price with
      | some e, some q, some u => some (round2 (max (u * q - e) 0))
      | _, _, _ =>
        match f.net, f.qty, f.unit_price with
        | some n, some q, some u => some (round2 (max (u * q - n) 0))
        | _, _, _ => none
  let line_total : Option ℚ :=
    match f.net, f.ext, f.total with
    | some v, _, _ => some v
    | none, some v, _ => some v
    | none, none, some v => some v
    | none, none, none =>
      match f.qty, f.unit_price with
      | some q, some u => some (round2 (q * u))
      | _, _ => none
  { item_code := f.item_code
    item_name := f.item_name
    qty := f.qty
    unit := f.unit
    unit_price := f.unit_price
    discount := discount
    line_total := line_total }

/-! ## Pagination completion hint (`is_last_page`, source lines 594-610) -/

/-- The fields of a listing-response JSON object that `is_last_page` inspects.
A field is `none` when the key is absent or its value is not of the inspected
type (mirroring the `isinstance` checks). -/
structure PageObj where
  last : Option Bool := none
  isLast : Option Bool := none
  hasNext : Option Bool := none
  hasMore : Option Bool := none
  has_next : Option Bool := none
  has_more : Option Bool := none
  totalPages : Option Int := none
  total_pages : Option Int := none
  pages : Option Int := none
  page : Option Int := none
  pageNumber : Option Int := none
  page_number : Option Int := none
  number : Option Int := none
deriving DecidableEq

/-- Python `x or y` on optional integers: `0` and `None` are falsy. -/
def pyOrInt : Option Int → Option Int → Option Int
  | some n, b => if n = 0 then b else some n
  | none, b => b

/-- The total-pages value `obj.get("totalPages") or obj.get("total_pages") or obj.get("pages")`. -/
def tpOf (o : PageObj) : Option Int := pyOrInt o.totalPages (pyOrInt o.total_pages o.pages)

/-- The page-number value `obj.get("page") or obj.get("pageNumber") or obj.get("page_number") or obj.get("number")`. -/
def pnOf (o : PageObj) : Option Int :=
  pyOrInt o.page (pyOrInt o.pageNumber (pyOrInt o.page_number o.number))

/-- Model of the nested `is_last_page` helper of `EfaturaClient.list_dfes`. -/
def is_last_page (o : PageObj) : Option Bool :=
  match o.last with
  | some b => some b
  | none =>
  match o.isLast with
  | some b => some b
  | none =>
  match o.hasNext with
  | some b => some (!b)
  | none =>
  match o.hasMore with
  | some b => some (!b)
  | none =>
  match o.has_next with
  | some b => some (!b)
  | none =>
  match o.has_more with
  | some b => some (!b)
  | none =>
  match tpOf o, pnOf o with
  | some tp, some pn =>
    if 0 < tp then (if tp ≤ pn ∨ tp ≤ pn + 1 then some true else none) else none
  | _, _ => none

/-! ## Listing loop (`EfaturaClient.list_dfes`, source lines 577-701) -/

/-- One item of a listing page, after `extract_items` /
`extract_uid_from_item`: its extracted UID (if any) and the `str(item)` text
used for the no-UID page signature. -/
structure ListItem where
  uid : Option String := none
  raw : String := ""
deriving DecidableEq

/-- One page of the listing response: its items plus the completion-hint
fields consumed by `is_last_page`. -/
structure ListResp where
  items : List ListItem := []
  meta : PageObj := {}

/-- Page signature: `(page_uids[0], page_uids[-1], len(page_uids))` when the
page has UIDs, else `(str(items[0])[:200], len(items))`. -/
inductive PageSig
  | withUids (first last : String) (count : Nat)
  | noUids (preview : String) (count : Nat)
deriving DecidableEq

def pageSignature (items : List ListItem) : PageSig :=
  let uids := items.filterMap (·.uid)
  match h : uids with
  | [] => .noUids (pyTake 200 (((items.head?).map (·.raw)).getD "")) items.length
  | u :: rest => .withUids u ((u :: rest).getLast (by simp)) uids.length

/-- The per-page de-duplication loop: items whose UID was already seen are
dropped, fresh UIDs are added to the seen-set, items without a UID are kept. -/
def dedupNewItems (seen : List String) : List ListItem → List String × List ListItem
  | [] => (seen, [])
  | it :: rest =>
    match it.uid with
    | some u =>
      if u ∈ seen then dedupNewItems seen rest
      else
        let p := dedupNewItems (u :: seen) rest
        (p.1, it :: p.2)
    | none =>
      let p := dedupNewItems seen rest
      (p.1, it :: p.2)

/-- The `while True` pagination loop of `list_dfes`. The `fuel` argument
encodes the remaining page budget of `page += 1; if page > 10000: raise ...`:
at page `p` the fuel is `10000 - p`, so fuel `0` at the bottom of the loop
body is exactly `page + 1 > 10000`. -/
def goList (server : Nat → ListResp) (pageSize : Nat) :
    Nat → Nat → List ListItem → List String → List PageSig →
      Except String (List ListItem)
  | fuel, page, records, seenUids, seenSigs =>
    let items := (server page).items
    if items.isEmpty then .ok records
    else
      let sig := pageSignature items
      if sig ∈ seenSigs then .ok records
      else
        let seenSigs2 := sig :: seenSigs
        let p := dedupNewItems seenUids items
        if p.2.isEmpty then .ok records
        else
          let records2 := records ++ p.2
          if is_last_page (server page).meta = some true then .ok records2
          else if items.length < pageSize then .ok records2
          else
            match fuel with
            | 0 => .error "Aborting: too many pages (possible pagination loop)."
            | fuel' + 1 => goList server pageSize fuel' (page + 1) records2 p.1 seenSigs2

/-- Model of `EfaturaClient.list_dfes` (records only; the discovered date-key
side channel is not modelled). Starts at page 1 with a budget of 10000 pages. -/
def list_dfes (server : Nat → ListResp) (pageSize : Nat) : Except String (List ListItem) :=
  goList server pageSize 9999 1 [] [] []

/-! ## Document-type inference (`infer_tipo_documento`, source lines 874-890) -/

def DOC_PREFIX_TO_TIPO : List (String × String) :=
  [("FTE", "Fatura Eletrónica"),
   ("FRE", "Fatura Recibo Eletrónica"),
   ("TVE", "Talão de Venda Eletrónico"),
   ("RCE", "Recibo Eletrónico"),
   ("NCE", "Nota de Crédito Eletrónica"),
   ("NDE", "Nota de Débito Eletrónica"),
   ("DVE", "Nota de Devolução Eletrónica"),
   ("DTE", "Documento de Transporte Eletrónico"),
   ("NLE", "Nota de Lançamento Eletrónica"),
   ("FT", "Factura"),
   ("FS", "Ticket"),
   ("FR", "Factura-Recibo"),
   ("RC", "Recibo"),
   ("NC", "Nota de Crédito"),
   ("ND", "Nota de Débito"),
   ("GR", "Guia de Remessa"),
   ("OR", "Orçamento")]

def isAsciiLetter (c : Char) : Bool := ('A' ≤ c && c ≤ 'Z') || ('a' ≤ c && c ≤ 'z')

/-- Match of `re.match(r"^\s*([A-Za-z]{1,4})\b", num)`: after optional leading
whitespace, the maximal initial run of ASCII letters is the capture iff it has
length 1..4 and is followed by a non-word character or the end of the string
(with backtracking, a shorter capture is never possible because the next
character would be a letter, hence a word character). Returns the captured
group. -/
def docnumLetterRun (num : String) : Option String :=
  let cs := num.data.dropWhile isPyWs
  let letters := cs.takeWhile isAsciiLetter
  let rest := cs.dropWhile isAsciiLetter
  if 1 ≤ letters.length && letters.length ≤ 4 &&
      (match rest.head? with | none => true | some c => !isWordChar c) then
    some ⟨letters⟩
  else none

/-- Model of `infer_tipo_documento`. -/
def infer_tipo_documento (document_number : String) (doc_kind : String) : String :=
  let num := pyStrip document_number
  let byNum : Option String :=
    if num ≠ "" then
      match docnumLetterRun num with
      | some pref =>
        match DOC_PREFIX_TO_TIPO.lookup (pyUpper pref) with
        | some tipo => some tipo
        | none => none
      | none => none
    else none
  match byNum with
  | some tipo => tipo
  | none =>
    let kind := pyLower (pyStrip doc_kind)
    if kind = "invoice" then "Factura"
    else if kind = "receipt" then "Recibo"
    else if doc_kind ≠ "" then doc_kind
    else ""

/-! ## Excel schema and cells -/

/-- Prior 17-column schema (`COLUMNS_V1`). -/
def COLUMNS_V1 : List String :=
  ["UID", "Erro", "Nome Fornecedor", "NIF Fornecedor", "Morada Fornecedor",
   "Data eFatura", "Data Documento", "Numero Documento", "Código Artigo",
   "Nome Artigo", "Quantidade", "Unidade Medida", "Preço Unitário", "Desconto",
   "Preço Total (linha)", "last_updated", "Exported"]

/-- Current 18-column schema (`COLUMNS`). -/
def COLUMNS : List String :=
  ["UID", "Erro", "Nome Fornecedor", "NIF Fornecedor", "Morada Fornecedor",
   "Data eFatura", "Data Documento", "Tipo de Documento", "Numero Documento",
   "Código Artigo", "Nome Artigo", "Quantidade", "Unidade Medida",
   "Preço Unitário", "Desconto", "Preço Total (linha)", "last_updated",
   "Exported"]

/-- A spreadsheet cell: `None`, a string, or a number (floats as `ℚ`). -/
inductive CellVal
  | empty
  | str (s : String)
  | num (q : ℚ)
deriving DecidableEq

/-- Python blank test `cur is None or str(cur).strip() == ""`. -/
def blankCell : CellVal → Bool
  | .empty => true
  | .str s => pyStrip s = ""
  | .num _ => false

/-- Rendering used where the code applies `str(...)` to a cell before the
prefix inference (`str(docnum) if docnum is not None else ""`). A numeric repr
always starts with a digit or a minus sign, which is all the inference logic
can observe of it. -/
def cellPyStr : CellVal → String
  | .empty => ""
  | .str s => s
  | .num q =>
    if q.den = 1 then toString q.num else toString q.num ++ "/" ++ toString q.den

/-! ## Raw sheet open/migrate (`ensure_workbook`, source lines 934-992) -/

/-- A raw worksheet: header row plus data rows, cells addressed positionally. -/
structure Sheet where
  header : List String
  rows : List (List CellVal)
deriving DecidableEq

/-- Migration of one v1 data row: insert a blank cell at 0-based index 7
(`insert_cols` before the 1-based "Numero Documento" position 8), then, the new
"Tipo de Documento" cell being blank, backfill it from the document-number
prefix when the inference yields a non-empty value. -/
def migrateRowV1 (r : List CellVal) : List CellVal :=
  let r1 := r.take 7 ++ (CellVal.empty :: r.drop 7)
  let cur := r1.getD 7 .empty
  if blankCell cur then
    let docnum := r1.getD 8 .empty
    let tipo := infer_tipo_documento (cellPyStr docnum) ""
    if tipo ≠ "" then r1.set 7 (.str tipo) else r1
  else r1

/-- Model of `ensure_workbook` on the sheet level. `none` means the file does
not exist (a fresh sheet is created). The returned flag records whether the
function called `safe_save_workbook` before returning (it does exactly when a
v1 sheet was migrated). The UID→rows map that the original also returns is
recomputed by the driver model from the rows. -/
def ensure_workbook : Option Sheet → Except String (Sheet × Bool)
  | none => .ok (⟨COLUMNS, []⟩, false)
  | some ws =>
    if ws.header = COLUMNS then .ok (ws, false)
    else if ws.header = COLUMNS_V1 then
      .ok (⟨COLUMNS, ws.rows.map migrateRowV1⟩, true)
    else .error "Excel header mismatch"

/-! ## Resume ledger (source lines 300-322) -/

/-- A JSON value stored under a ledger key: a string or anything else. -/
inductive JVal
  | jstr (s : String)
  | jother
deriving DecidableEq

/-- The resume-ledger state dict `{started_uid, completed_uid, ts}`. -/
structure ResumeState where
  started_uid : Option JVal := none
  completed_uid : Option JVal := none
  ts : Option String := none
deriving DecidableEq

/-- Possible outcomes of reading the ledger file: absent, unreadable/invalid
JSON (any exception during read or parse), or successfully decoded state. -/
inductive LedgerFile
  | missing
  | corrupt
  | parsed (st : ResumeState)

/-- Model of `load_resume_state`: a missing file and a corrupted file both
yield the empty state instead of raising. -/
def load_resume_state : LedgerFile → ResumeState
  | .missing => {}
  | .corrupt => {}
  | .parsed st => st

/-- Model of `compute_resume_uid`: the started UID iff it is a non-empty
string different from the completed value. -/
def compute_resume_uid (st : ResumeState) : Option String :=
  match st.started_uid with
  | some (.jstr s) =>
    if s ≠ "" ∧ st.completed_uid ≠ some (.jstr s) then some s else none
  | _ => none

/-! ## Table rows and row-level operations (source lines 900-1301) -/

/-- One data row of the 18-column table, fields in `COLUMNS` order. -/
structure Row where
  uid : CellVal := .empty
  erro : CellVal := .empty
  nome : CellVal := .empty
  nif : CellVal := .empty
  morada : CellVal := .empty
  dataEf : CellVal := .empty
  dataDoc : CellVal := .empty
  tipoDoc : CellVal := .empty
  numDoc : CellVal := .empty
  codArt : CellVal := .empty
  nomeArt : CellVal := .empty
  qtd : CellVal := .empty
  unidade : CellVal := .empty
  precoUnit : CellVal := .empty
  desconto : CellVal := .empty
  precoTotal : CellVal := .empty
  lastUpdated : CellVal := .empty
  exported : CellVal := .empty
deriving DecidableEq

/-- The key under which a row is indexed by `uid_row_map`
(`isinstance(uid, str) and uid.strip()`): the stripped first cell when it is a
non-blank string. -/
def rowKey (r : Row) : Option String :=
  match r.uid with
  | .str s => if pyStrip s ≠ "" then some (pyStrip s) else none
  | _ => none

/-- All UID keys present in the table (`uid_row_map.keys()`, with repetition;
only membership is ever used). -/
def tableUids (ws : List Row) : List String := ws.filterMap rowKey

/-- The rows of a given UID, in sheet order. -/
def rowsFor (ws : List Row) (u : String) : List Row :=
  ws.filter (fun r => rowKey r = some u)

/-- Model of `delete_uid_rows`: drop every row whose first cell is a string
that strips to the (stripped) UID; a blank UID deletes nothing. -/
def delete_uid_rows (ws : List Row) (uid : String) : List Row :=
  let u := pyStrip uid
  if u = "" then ws
  else ws.filter (fun r => match r.uid with | .str s => pyStrip s ≠ u | _ => true)

/-- Row written by `append_error_row`: UID, error text and `last_updated`
only. -/
def mkErrorRow (uid reason now : String) : Row :=
  { uid := .str uid, erro := .str reason, lastUpdated := .str now }

def append_error_row (ws : List Row) (uid reason now : String) : List Row :=
  ws ++ [mkErrorRow uid reason now]

/-- Document header fields consumed by the driver (subset of the `doc_meta`
dict built by `parse_invoice_lines`). -/
structure Meta where
  supplier_name : String := ""
  supplier_taxid : String := ""
  supplier_address : String := ""
  issue_date : String := ""
  document_number : String := ""
  doc_kind : String := ""
  ref_uids : List String := []
deriving DecidableEq

def optNum : Option ℚ → CellVal
  | none => .empty
  | some q => .num q

/-- One row written by `append_line_rows` for a line item. -/
def mkLineRow (uid efdate : String) (meta : Meta) (tipo : String) (ln : LineRec)
    (now : String) : Row :=
  { uid := .str uid
    erro := .str ""
    nome := .str meta.supplier_name
    nif := .str meta.supplier_taxid
    morada := .str meta.supplier_address
    dataEf := .str efdate
    dataDoc := .str meta.issue_date
    tipoDoc := .str tipo
    numDoc := .str meta.document_number
    codArt := .str ln.item_code
    nomeArt := .str ln.item_name
    qtd := optNum ln.qty
    unidade := .str ln.unit
    precoUnit := optNum ln.unit_price
    desconto := optNum ln.discount
    precoTotal := optNum ln.line_total
    lastUpdated := .str now
    exported := .empty }

/-- Model of `append_line_rows`: one row per line item, all sharing the
header-derived cells (the inferred document type included). -/
def append_line_rows (ws : List Row) (uid efdate : String) (meta : Meta)
    (lines : List LineRec) (now : String) : List Row :=
  let tipo := infer_tipo_documento meta.document_number meta.doc_kind
  ws ++ lines.map (fun ln => mkLineRow uid efdate meta tipo ln now)

/-- Per-row form of `backfill_efatura_dates`: fill a blank "Data eFatura" cell
(updating `last_updated`) when the listing provided a date for the row's UID.
The original iterates over `uid_row_map`, which indexes exactly the rows with a
non-blank string UID, so the row-wise formulation is equivalent. -/
def backfillRow (efLookup : String → Option String) (now : String) (r : Row) : Row :=
  match rowKey r with
  | some u =>
    match efLookup u with
    | some ef =>
      if blankCell r.dataEf then { r with dataEf := .str ef, lastUpdated := .str now }
      else r
    | none => r
  | none => r

def backfill_efatura_dates (ws : List Row) (efLookup : String → Option String)
    (now : String) : List Row :=
  ws.map (backfillRow efLookup now)

/-! ## Sync driver (`main`, source lines 1410-1615) -/

/-- Outcome of `fetch_dfe_inner_xml` + `safe_parse_xml` + `parse_invoice_lines`
for one UID: success with header and lines, an exception (any error other than
the auth signals; its message becomes the error row), or an auth failure
(`EfaturaAuthNeedsReauth` / `PermissionError`), which aborts the run. -/
inductive FetchResult
  | ok (meta : Meta) (lines : List LineRec)
  | err (msg : String)
  | authFail

/-- Backfill of blank supplier fields from a referenced document
(`for k in (...): if not meta.get(k): meta[k] = meta2.get(k, "")`). -/
def mergeSupplierFields (m m2 : Meta) : Meta :=
  { m with
    supplier_name := if m.supplier_name = "" then m2.supplier_name else m.supplier_name
    supplier_taxid := if m.supplier_taxid = "" then m2.supplier_taxid else m.supplier_taxid
    supplier_address :=
      if m.supplier_address = "" then m2.supplier_address else m.supplier_address }

/-- The reference-following loop: try each referenced UID in order and adopt
the first whose fetch+parse succeeds with at least one line; any failure (auth
signals included, they are caught by the inner `except Exception`) moves on to
the next reference. -/
def followRefs (fetch : String → FetchResult) (meta : Meta) :
    List String → Meta × List LineRec
  | [] => (meta, [])
  | ref :: rest =>
    match fetch ref with
    | .ok m2 l2 =>
      if l2.isEmpty then followRefs fetch meta rest
      else (mergeSupplierFields meta m2, l2)
    | _ => followRefs fetch meta rest

def joinComma : List String → String
  | [] => ""
  | [x] => x
  | x :: xs => x ++ "," ++ joinComma xs

/-- The diagnostic message of the zero-lines error row. -/
def noLinesMsg (meta : Meta) : String :=
  "No Lines found (doc_kind=" ++ meta.doc_kind ++ ", doc_number=" ++
    meta.document_number ++ ", refs=" ++ joinComma meta.ref_uids ++ ")"

/-- What processing one UID will write: abort on auth failure, an error row
with the truncated exception message, an error row for a document with no
lines after exhausting its references, or the document's line rows. -/
inductive DocOutcome
  | auth
  | errExc (msg : String)
  | errNoLines (msg : String)
  | docRows (meta : Meta) (lines : List LineRec)

/-- The fetch→parse→follow-references pipeline for one UID (the body of the
`try` in the main loop, up to the branch on the outcome). -/
def docOutcome (fetch : String → FetchResult) (uid : String) : DocOutcome :=
  match fetch uid with
  | .authFail => .auth
  | .err msg => .errExc (pyTake 500 msg)
  | .ok meta lines =>
    let refs := meta.ref_uids.filter (fun r => !(r = "") && !(r = uid))
    let p := if lines.isEmpty then followRefs fetch meta refs else (meta, lines)
    if p.2.isEmpty then .errNoLines (noLinesMsg meta)
    else .docRows p.1 p.2

/-- Command-line switches consumed by the driver model. `maxDocs = 0` means no
limit (`--max-docs` default). -/
structure SyncArgs where
  rewriteExisting : Bool := false
  maxDocs : Nat := 0

/-- Mutable state of the main per-UID loop. `aborted` models having executed
`break` (max-docs cap reached or auth failure). -/
structure StepState where
  ws : List Row
  existing : List String
  resume : ResumeState
  resumeUid : Option String
  addedDocs : Nat := 0
  addedRows : Nat := 0
  errors : Nat := 0
  aborted : Bool := false

/-- Set insertion for `existing_uids.add(uid)`. -/
def addUid (l : List String) (u : String) : List String := if u ∈ l then l else u :: l

/-- Processing of one UID in the main loop (source lines 1486-1608): skip an
already-present UID unless it must be rewritten; delete existing rows when
rewriting; mark `started_uid`; fetch/parse; then append either line rows or an
error row and mark `completed_uid`. The dangling resume UID is cleared on the
success and exception paths (the zero-lines path leaves it, as in the
source). -/
def processUid (args : SyncArgs) (fetch : String → FetchResult)
    (efLookup : String → Option String) (now : String) (s : StepState)
    (uid : String) : StepState :=
  if s.aborted then s
  else if args.maxDocs ≠ 0 ∧ args.maxDocs ≤ s.addedDocs then { s with aborted := true }
  else
    let uidExists := uid ∈ s.existing
    let shouldRewrite := args.rewriteExisting = true ∨ s.resumeUid = some uid
    if uidExists ∧ ¬shouldRewrite then s
    else
      let ws0 := if uidExists ∧ shouldRewrite then delete_uid_rows s.ws uid else s.ws
      let res1 : ResumeState :=
        { s.resume with started_uid := some (.jstr uid), ts := some now }
      let efdate := (efLookup uid).getD ""
      match docOutcome fetch uid with
      | .auth => { s with ws := ws0, resume := res1, aborted := true }
      | .errExc msg =>
        { s with
          ws := append_error_row ws0 uid msg now
          existing := addUid s.existing uid
          resume := { res1 with completed_uid := some (.jstr uid), ts := some now }
          resumeUid := if s.resumeUid = some uid then none else s.resumeUid
          errors := s.errors + 1 }
      | .errNoLines msg =>
        { s with
          ws := append_error_row ws0 uid msg now
          existing := addUid s.existing uid
          resume := { res1 with completed_uid := some (.jstr uid), ts := some now }
          errors := s.errors + 1 }
      | .docRows meta lines =>
        { s with
          ws := append_line_rows ws0 uid efdate meta lines now
          existing := addUid s.existing uid
          resume := { res1 with completed_uid := some (.jstr uid), ts := some now }
          resumeUid := if s.resumeUid = some uid then none else s.resumeUid
          addedDocs := s.addedDocs + 1
          addedRows := s.addedRows + lines.length }

/-- The `uid_to_efdate` map: first listing record with the UID, kept only when
its extracted date is truthy. -/
def listingEfdateMap (listing : List (String × Option String)) :
    String → Option String := fun u =>
  match listing.lookup u with
  | some (some e) => if e = "" then none else some e
  | _ => none

/-- One run of the sync driver over an already-listed universe of documents.
`listing` holds the extracted `(uid, authorized-date)` pairs of the listing
records, `fetch` the per-UID fetch+parse pipeline, `now` the (constant)
timestamp of the run, `ws` the opened table rows and `ledger` the loaded
resume state. Mirrors `main` from `ensure_workbook` onward: build the
existing-UID set, compute the resume UID, backfill "Data eFatura", then fold
the per-UID processing over the sorted de-duplicated UID universe. -/
def mainRun (args : SyncArgs) (listing : List (String × Option String))
    (fetch : String → FetchResult) (now : String) (ws : List Row)
    (ledger : ResumeState) : StepState :=
  let efLookup := listingEfdateMap listing
  let ws1 := backfill_efatura_dates ws efLookup now
  let uids := sortStrings (dictKeys (listing.map Prod.fst))
  uids.foldl (processUid args fetch efLookup now)
    { ws := ws1
      existing := tableUids ws
      resume := ledger
      resumeUid := compute_resume_uid ledger }

/-- The rows that processing UID `uid` appends on a non-skip step (the fresh
row-set of the document). -/
def freshRows (fetch : String → FetchResult) (efLookup : String → Option String)
    (now : String) (uid : String) : List Row :=
  match docOutcome fetch uid with
  | .auth => []
  | .errExc msg => [mkErrorRow uid msg now]
  | .errNoLines msg => [mkErrorRow uid msg now]
  | .docRows meta lines => append_line_rows [] uid ((efLookup uid).getD "") meta lines now

/-! ## Row/UID invariant (spec §8, first bullet) -/

/-- Is this row an error row? (`Erro` column holds a non-empty string; line
rows carry the empty string there, untouched rows `None`.) -/
def isErrRow (r : Row) : Bool :=
  match r.erro with
  | .str s => !(s = "")
  | _ => false

/-- The non-item-level cells of a row: everything except the seven item-level
columns (`Código Artigo` … `Preço Total (linha)`). -/
def headerPart (r : Row) : List CellVal :=
  [r.uid, r.erro, r.nome, r.nif, r.morada, r.dataEf, r.dataDoc, r.tipoDoc,
   r.numDoc, r.lastUpdated, r.exported]

/-- The row/UID invariant for one UID's row list: either all rows are
non-error rows agreeing on every non-item-level cell, or the list is exactly
one error row. -/
def rowsOk (rs : List Row) : Bool :=
  (rs.all (fun r => !isErrRow r) &&
    rs.all (fun r => rs.all (fun r' => decide (headerPart r = headerPart r')))) ||
  (match rs with
   | [r] => isErrRow r
   | _ => false)

/-- The row/UID invariant of a whole table. -/
def rowInv (ws : List Row) : Bool :=
  (tableUids ws).all (fun u => rowsOk (rowsFor ws u))

/-! ## Concrete scenarios used to instantiate the theorems -/

/-- The value the migration writes into the fresh "Tipo de Documento" cell of
a v1 row: the prefix-inferred type when non-empty, else left blank. -/
def migCell (r : List CellVal) : CellVal :=
  let tipo := infer_tipo_documento (cellPyStr (r.getD 7 .empty)) ""
  if tipo = "" then .empty else .str tipo

/-- A listing page object carrying only `totalPages = 3` and `page = 2`. -/
def c5Obj : PageObj := { totalPages := some 3, page := some 2 }

def mkUidItem (u : String) : ListItem := { uid := some u }

/-- A listing endpoint that serves two distinct full pages and then repeats
page 3 forever. -/
def repeatingServer : Nat → ListResp := fun page =>
  if page = 1 then { items := [mkUidItem "AA1", mkUidItem "AA2"] }
  else if page = 2 then { items := [mkUidItem "BB1", mkUidItem "BB2"] }
  else { items := [mkUidItem "CC1", mkUidItem "CC2"] }

/-- Pairwise-distinct UID-shaped strings (two letters, ≥10 digits). -/
def freshUid (n : Nat) : String := ⟨'A' :: 'B' :: List.replicate (10 + n) '0'⟩

/-- A listing endpoint that serves a fresh single-item page forever (so that
with `page_size = 1` no stop condition ever fires). -/
def endlessServer : Nat → ListResp := fun page => { items := [mkUidItem (freshUid page)] }

/-- A one-document listing whose document carries an authorized date. -/
def c8Listing : List (String × Option String) := [("AB0000000001", some "2024-01-02")]

/-- A fetch pipeline whose document parses but yields no lines and no
references: the driver records an error row for it. -/
def c8Fetch : String → FetchResult := fun _ => .ok {} []

/-- First sync run over `c8Listing` starting from an empty table. -/
def c8Run1 : StepState := mainRun {} c8Listing c8Fetch "t" [] {}

/-- Second sync run over the same listing, same clock, starting from the
table and ledger the first run produced. -/
def c8Run2 : StepState := mainRun {} c8Listing c8Fetch "t" c8Run1.ws c8Run1.resume

/-- A fetch pipeline for the resumption scenario: the resumed document yields
two line items. -/
def c2Fetch : String → FetchResult := fun u =>
  if u = "AB0000000001" then
    .ok { supplier_name := "S", document_number := "FTE 1/24" }
      [{ item_code := "C1", qty := some 2 }, { item_code := "C2" }]
  else .err "boom"

/-- A partial row-set for the crashed document (as left by a crash in the
middle of `append_line_rows`). -/
def c2PartialTable : List Row :=
  [{ uid := .str "AB0000000001", erro := .str "", nome := .str "S" }]

/-- A ledger whose `started_uid` was written but never completed. -/
def c2CrashLedger : ResumeState := { started_uid := some (.jstr "AB0000000001") }

/-- A v1-schema sheet with one data row, used to instantiate the migration
theorem. -/
def c7V1Sheet : Sheet :=
  { header := COLUMNS_V1
    rows := [[CellVal.str "AB0000000001", .str "", .str "Forn", .str "123",
              .str "Rua", .str "2024-01-02", .str "2024-01-01", .str "FTE 1/24",
              .str "A1", .str "Item", .num 2, .str "UN", .num 5, .empty,
              .num 10, .str "ts", .empty]] }

/-- A sheet whose header matches neither schema. -/
def c7BadSheet : Sheet := { header := ["X"], rows := [] }

/-- Line fields of the C3 scenario: quantity 10, unit price 5.00, extension
amount 45.00, no explicit discount. -/
def c3Fields : LineFields := { qty := some 10, unit_price := some 5, ext := some 45 }

/-! # Theorems -/

/-! ## Sanitisation lemmas -/

theorem escapeAmps_cons_ne (c : Char) (rest : List Char) (h : c ≠ '&') :
    escapeAmps (c :: rest) = c :: escapeAmps rest := by
  simp [escapeAmps, h]

theorem escapeAmps_cons_amp_entity (rest : List Char)
    (h : entityAfterAmp rest = true) :
    escapeAmps ('&' :: rest) = '&' :: escapeAmps rest := by
  simp [escapeAmps, h]

theorem escapeAmps_cons_amp_bare (rest : List Char)
    (h : entityAfterAmp rest = false) :
    escapeAmps ('&' :: rest) = '&' :: 'a' :: 'm' :: 'p' :: ';' :: escapeAmps rest := by
  simp [escapeAmps, h]

theorem entityAfterAmp_hex (r2 : List Char) :
    entityAfterAmp ('#' :: 'x' :: r2) =
      (!(r2.takeWhile isHexDigitChar).isEmpty &&
        ((r2.dropWhile isHexDigitChar).head? = some ';')) := rfl

theorem entityAfterAmp_digit (c1 : Char) (r2 : List Char) (hx : c1 ≠ 'x') :
    entityAfterAmp ('#' :: c1 :: r2) =
      (!((c1 :: r2).takeWhile isAsciiDigit).isEmpty &&
        (((c1 :: r2).dropWhile isAsciiDigit).head? = some ';')) := by
  simp [entityAfterAmp, hx]

theorem entityAfterAmp_word (c : Char) (rest : List Char) (hc : c ≠ '#') :
    entityAfterAmp (c :: rest) =
      (!((c :: rest).takeWhile isWordChar).isEmpty &&
        (((c :: rest).dropWhile isWordChar).head? = some ';')) := by
  simp [entityAfterAmp, hc]

theorem takeWhile_append_delim {α : Type} (p : α → Bool) (h : List α) (d : α)
    (z : List α) (hh : ∀ c ∈ h, p c = true) (hd : p d = false) :
    (h ++ d :: z).takeWhile p = h := by
  induction h with
  | nil => simp [List.takeWhile_cons, hd]
  | cons a as ih =>
    have ha : p a = true := hh a (by simp)
    simp only [List.cons_append, List.takeWhile_cons, ha, if_true]
    rw [ih (fun c hc => hh c (by simp [hc]))]

theorem dropWhile_append_delim {α : Type} (p : α → Bool) (h : List α) (d : α)
    (z : List α) (hh : ∀ c ∈ h, p c = true) (hd : p d = false) :
    (h ++ d :: z).dropWhile p = d :: z := by
  induction h with
  | nil => simp [List.dropWhile_cons, hd]
  | cons a as ih =>
    have ha : p a = true := hh a (by simp)
    simp only [List.cons_append, List.dropWhile_cons, ha, if_true]
    exact ih (fun c hc => hh c (by simp [hc]))

theorem escapeAmps_copy (p l : List Char) (hp : ∀ c ∈ p, c ≠ '&') :
    escapeAmps (p ++ l) = p ++ escapeAmps l := by
  induction p with
  | nil => rfl
  | cons a as ih =>
    have ha : a ≠ '&' := hp a (by simp)
    show escapeAmps (a :: (as ++ l)) = a :: (as ++ escapeAmps l)
    rw [escapeAmps_cons_ne _ _ ha, ih (fun c hc => hp c (by simp [hc]))]

theorem mem_escapeAmps {c : Char} {l : List Char} (h : c ∈ escapeAmps l) :
    c ∈ l ∨ c = 'a' ∨ c = 'm' ∨ c = 'p' ∨ c = ';' := by
  induction l with
  | nil => simp [escapeAmps] at h
  | cons a as ih =>
    by_cases ha : a = '&'
    · subst ha
      by_cases he : entityAfterAmp as = true
      · rw [escapeAmps_cons_amp_entity _ he] at h
        rcases List.mem_cons.mp h with rfl | hmem
        · exact Or.inl (List.mem_cons_self _ _)
        · rcases ih hmem with hm | hm
          · exact Or.inl (List.mem_cons_of_mem _ hm)
          · exact Or.inr hm
      · rw [escapeAmps_cons_amp_bare _ (by simpa using he)] at h
        rcases List.mem_cons.mp h with rfl | h'
        · exact Or.inl (List.mem_cons_self _ _)
        rcases List.mem_cons.mp h' with rfl | h2
        · exact Or.inr (Or.inl rfl)
        rcases List.mem_cons.mp h2 with rfl | h3
        · exact Or.inr (Or.inr (Or.inl rfl))
        rcases List.mem_cons.mp h3 with rfl | h4
        · exact Or.inr (Or.inr (Or.inr (Or.inl rfl)))
        rcases List.mem_cons.mp h4 with rfl | h5
        · exact Or.inr (Or.inr (Or.inr (Or.inr rfl)))
        rcases ih h5 with hm | hm
        · exact Or.inl (List.mem_cons_of_mem _ hm)
        · exact Or.inr hm
    · rw [escapeAmps_cons_ne _ _ ha] at h
      rcases List.mem_cons.mp h with rfl | hmem
      · exact Or.inl (List.mem_cons_self _ _)
      · rcases ih hmem with hm | hm
        · exact Or.inl (List.mem_cons_of_mem _ hm)
        · exact Or.inr hm

theorem entityAfterAmp_decomp {cs : List Char} (h : entityAfterAmp cs = true) :
    ∃ p t, cs = p ++ t ∧ (∀ c ∈ p, c ≠ '&') ∧
      ∀ w, entityAfterAmp (p ++ w) = true := by
  have split : ∀ (p : Char → Bool) (l : List Char),
      (!(l.takeWhile p).isEmpty && ((l.dropWhile p).head? = some ';')) = true →
      ∃ r z, l = r ++ ';' :: z ∧ (∀ c ∈ r, p c = true) ∧ r ≠ [] := by
    intro p l hb
    rw [Bool.and_eq_true] at hb
    obtain ⟨hne, hd⟩ := hb
    obtain ⟨z, hz⟩ : ∃ z, l.dropWhile p = ';' :: z := by
      cases hdw : l.dropWhile p with
      | nil => rw [hdw] at hd; simp at hd
      | cons a as => rw [hdw] at hd; simp at hd; exact ⟨as, by rw [hd]⟩
    refine ⟨l.takeWhile p, z, ?_, fun c hc => List.mem_takeWhile_imp hc, ?_⟩
    · conv_lhs => rw [← List.takeWhile_append_dropWhile (p := p) (l := l)]
      rw [hz]
    · intro hnil
      rw [hnil] at hne
      simp at hne
  cases cs with
  | nil => simp [entityAfterAmp] at h
  | cons c rest =>
    by_cases hc : c = '#'
    · subst hc
      cases rest with
      | nil => simp [entityAfterAmp] at h
      | cons c1 r2 =>
        by_cases hx : c1 = 'x'
        · subst hx
          rw [entityAfterAmp_hex] at h
          obtain ⟨hs, z, hdec, hall, hsne⟩ := split isHexDigitChar r2 h
          refine ⟨'#' :: 'x' :: (hs ++ [';']), z, ?_, ?_, ?_⟩
          · simp [hdec]
          · intro a ha
            simp only [List.mem_cons, List.mem_append, List.mem_singleton,
              List.not_mem_nil, or_false] at ha
            rcases ha with rfl | rfl | ha | rfl
            · decide
            · decide
            · have := hall a ha
              intro hampa; subst hampa
              simp [isHexDigitChar, isAsciiDigit] at this
            · decide
          · intro w
            have h1 : (hs ++ ';' :: w).takeWhile isHexDigitChar = hs :=
              takeWhile_append_delim _ hs ';' w hall (by decide)
            have h2 : (hs ++ ';' :: w).dropWhile isHexDigitChar = ';' :: w :=
              dropWhile_append_delim _ hs ';' w hall (by decide)
            simp only [List.cons_append, List.append_assoc, List.singleton_append,
              List.nil_append]
            rw [entityAfterAmp_hex, h1]
            simp only [h2]
            simp [hsne]
        · rw [entityAfterAmp_digit _ _ hx] at h
          obtain ⟨ds, z, hdec, hall, hdne⟩ := split isAsciiDigit (c1 :: r2) h
          refine ⟨'#' :: (ds ++ [';']), z, ?_, ?_, ?_⟩
          · simp only [List.cons_append, List.append_assoc, List.nil_append,
              List.singleton_append]
            rw [← hdec]
          · intro a ha
            simp only [List.mem_cons, List.mem_append, List.mem_singleton,
              List.not_mem_nil, or_false] at ha
            rcases ha with rfl | ha | rfl
            · decide
            · have := hall a ha
              intro hampa; subst hampa
              simp [isAsciiDigit] at this
            · decide
          · intro w
            cases ds with
            | nil => exact absurd rfl hdne
            | cons d0 ds' =>
              have hd0 : isAsciiDigit d0 = true := hall d0 (by simp)
              have hd0x : d0 ≠ 'x' := by
                intro hh; subst hh; simp [isAsciiDigit] at hd0
              have h1 : List.takeWhile isAsciiDigit (d0 :: (ds' ++ ';' :: w)) = d0 :: ds' := by
                have := takeWhile_append_delim isAsciiDigit (d0 :: ds') ';' w hall (by decide)
                simpa only [List.cons_append] using this
              have h2 : List.dropWhile isAsciiDigit (d0 :: (ds' ++ ';' :: w)) = ';' :: w := by
                have := dropWhile_append_delim isAsciiDigit (d0 :: ds') ';' w hall (by decide)
                simpa only [List.cons_append] using this
              simp only [List.cons_append, List.append_assoc, List.singleton_append,
                List.nil_append]
              rw [entityAfterAmp_digit _ _ hd0x, h1]
              simp only [h2]
              simp
    · rw [entityAfterAmp_word _ _ hc] at h
      obtain ⟨ws, z, hdec, hall, hwne⟩ := split isWordChar (c :: rest) h
      refine ⟨ws ++ [';'], z, ?_, ?_, ?_⟩
      · simp only [List.append_assoc, List.nil_append, List.singleton_append]
        rw [← hdec]
      · intro a ha
        simp only [List.mem_append, List.mem_singleton,
          List.not_mem_nil, or_false] at ha
        rcases ha with ha | rfl
        · have := hall a ha
          intro hampa; subst hampa
          simp [isWordChar] at this
        · decide
      · intro w
        cases ws with
        | nil => exact absurd rfl hwne
        | cons w0 ws' =>
          have hw0 : isWordChar w0 = true := hall w0 (by simp)
          have hw0hash : w0 ≠ '#' := by
            intro hh; subst hh; simp [isWordChar] at hw0
          have h1 : List.takeWhile isWordChar (w0 :: (ws' ++ ';' :: w)) = w0 :: ws' := by
            have := takeWhile_append_delim isWordChar (w0 :: ws') ';' w hall (by decide)
            simpa only [List.cons_append] using this
          have h2 : List.dropWhile isWordChar (w0 :: (ws' ++ ';' :: w)) = ';' :: w := by
            have := dropWhile_append_delim isWordChar (w0 :: ws') ';' w hall (by decide)
            simpa only [List.cons_append] using this
          simp only [List.cons_append, List.append_assoc, List.singleton_append,
            List.nil_append]
          rw [entityAfterAmp_word _ _ hw0hash, h1]
          simp only [h2]
          simp

theorem escapeAmps_idem (l : List Char) :
    escapeAmps (escapeAmps l) = escapeAmps l := by
  induction l with
  | nil => rfl
  | cons c rest ih =>
    by_cases hc : c = '&'
    · subst hc
      by_cases he : entityAfterAmp rest = true
      · rw [escapeAmps_cons_amp_entity _ he]
        obtain ⟨p, t, hpt, hp, hent⟩ := entityAfterAmp_decomp he
        have hcopy : escapeAmps rest = p ++ escapeAmps t := by
          rw [hpt]; exact escapeAmps_copy p t hp
        have he2 : entityAfterAmp (escapeAmps rest) = true := by
          rw [hcopy]; exact hent _
        rw [escapeAmps_cons_amp_entity _ he2, ih]
      · rw [escapeAmps_cons_amp_bare _ (by simpa using he)]
        have hamp : entityAfterAmp ('a' :: 'm' :: 'p' :: ';' :: escapeAmps rest) = true := by
          rw [entityAfterAmp_word _ _ (by decide)]
          simp [List.takeWhile_cons, List.dropWhile_cons, isWordChar]
        rw [escapeAmps_cons_amp_entity _ hamp]
        rw [escapeAmps_cons_ne _ _ (by decide), escapeAmps_cons_ne _ _ (by decide),
          escapeAmps_cons_ne _ _ (by decide), escapeAmps_cons_ne _ _ (by decide), ih]
    · rw [escapeAmps_cons_ne _ _ hc, escapeAmps_cons_ne _ _ hc, ih]

theorem dropWhile_until_lt_head {cs : List Char} (h : '<' ∈ cs) :
    (cs.dropWhile (fun c => !(c = '<'))).head? = some '<' := by
  induction cs with
  | nil => simp at h
  | cons a as ih =>
    by_cases ha : a = '<'
    · subst ha
      simp [List.dropWhile_cons]
    · have h' : '<' ∈ as := by
        rcases List.mem_cons.mp h with hh | hh
        · exact absurd hh.symm ha
        · exact hh
      simpa [List.dropWhile_cons, ha] using ih h'

theorem trimToLt_head {cs : List Char} (h : '<' ∈ cs) :
    (trimToLt cs).head? = some '<' := by
  rw [trimToLt, if_pos h]
  exact dropWhile_until_lt_head h

theorem mem_trimToLt {c : Char} {cs : List Char} (h : c ∈ trimToLt cs) : c ∈ cs := by
  rw [trimToLt] at h
  by_cases hlt : '<' ∈ cs
  · rw [if_pos hlt] at h
    exact (List.dropWhile_sublist _).subset h
  · rwa [if_neg hlt] at h

theorem sanitizeChars_idem (cs : List Char) :
    sanitizeChars (sanitizeChars cs) = sanitizeChars cs := by
  by_cases hcs : cs = []
  · subst hcs; rfl
  · have hrdef : sanitizeChars cs =
        escapeAmps ((trimToLt cs).filter (fun c => !isIllegalXmlChar c)) := by
      rw [sanitizeChars, if_neg hcs]
    by_cases hrnil : sanitizeChars cs = []
    · rw [hrnil]; rfl
    · have step1 : trimToLt (sanitizeChars cs) = sanitizeChars cs := by
        by_cases hlt : '<' ∈ cs
        · obtain ⟨t, ht⟩ : ∃ t, trimToLt cs = '<' :: t := by
            have := trimToLt_head hlt
            cases htc : trimToLt cs with
            | nil => rw [htc] at this; simp at this
            | cons a as =>
              rw [htc] at this; simp at this; exact ⟨as, by rw [this]⟩
          have hresc : sanitizeChars cs =
              '<' :: escapeAmps (t.filter (fun c => !isIllegalXmlChar c)) := by
            rw [hrdef, ht]
            rw [show ('<' :: t).filter (fun c => !isIllegalXmlChar c) =
              '<' :: t.filter (fun c => !isIllegalXmlChar c) from by
                simp [List.filter_cons, isIllegalXmlChar]]
            rw [escapeAmps_cons_ne _ _ (by decide)]
          rw [hresc, trimToLt, if_pos (by simp), List.dropWhile_cons]
          simp
        · have hltr : '<' ∉ sanitizeChars cs := by
            intro hmem
            rw [hrdef] at hmem
            rcases mem_escapeAmps hmem with hm | hm | hm | hm | hm
            · have : ('<' : Char) ∈ trimToLt cs := (List.mem_filter.mp hm).1
              exact hlt (mem_trimToLt this)
            all_goals simp at hm
          rw [trimToLt, if_neg hltr]
      have step2 : (sanitizeChars cs).filter (fun c => !isIllegalXmlChar c) =
          sanitizeChars cs := by
        rw [List.filter_eq_self]
        intro a ha
        rw [hrdef] at ha
        rcases mem_escapeAmps ha with hm | hm | hm | hm | hm
        · exact (List.mem_filter.mp hm).2
        all_goals subst hm; decide
      have step3 : escapeAmps (sanitizeChars cs) = sanitizeChars cs := by
        conv_lhs => rw [hrdef]
        rw [escapeAmps_idem]
        rw [hrdef]
      conv_lhs => rw [sanitizeChars, if_neg hrnil]
      rw [step1, step2, step3]

/-- C9: XML sanitization is idempotent — for every string `s`,
`sanitize_xml_text (sanitize_xml_text s) = sanitize_xml_text s`; in
particular, ampersands escaped to `&amp;` by the first pass are recognised as
entities and not re-escaped by a second pass. -/
theorem c9_sanitize_idempotent (s : String) :
    sanitize_xml_text (sanitize_xml_text s) = sanitize_xml_text s :=
  congrArg String.mk (sanitizeChars_idem s.data)

/-! ## Line-item derivation theorems -/

/-- C3: for quantity 10, unit price 5.00, extension amount 45.00 and no
explicit discount field, extraction derives discount 5.00 and line total
45.00; in general, with no explicit discount and quantity, unit price and an
extension-or-net total present, the discount is
`round(max(unit_price*qty - total, 0), 2)` (the extension amount taking
priority over the net total when both are present). -/
theorem c3_discount_derivation :
    ((parseLine c3Fields).discount = some 5 ∧
      (parseLine c3Fields).line_total = some 45) ∧
    (∀ (f : LineFields) (t q u : ℚ), f.discount_explicit = none →
      f.qty = some q → f.unit_price = some u →
      (f.ext = some t ∨ (f.ext = none ∧ f.net = some t)) →
      (parseLine f).discount = some (round2 (max (u * q - t) 0))) := by
  constructor
  · constructor
    · show some (round2 (max ((5 : ℚ) * 10 - 45) 0)) = some 5
      rw [show ((5 : ℚ) * 10 - 45) = 5 by norm_num, max_eq_left (by norm_num)]
      rw [round2, show ((5 : ℚ) * 100) = (500 : ℚ) by norm_num,
        show roundHalfEven (500 : ℚ) = 500 by decide]
      norm_num
    · rfl
  · rintro f t q u hd hq hu (ht | ⟨he, hn⟩)
    · obtain ⟨qty, un, up, ext, net, total, de, ic, inm⟩ := f
      simp only at hd hq hu ht
      subst hd; subst hq; subst hu; subst ht
      rfl
    · obtain ⟨qty, un, up, ext, net, total, de, ic, inm⟩ := f
      simp only at hd hq hu he hn
      subst hd; subst hq; subst hu; subst he; subst hn
      rfl

theorem c3_discount_derivation_witness :
    (parseLine c3Fields).discount = some (round2 (max ((5 : ℚ) * 10 - 45) 0)) :=
  c3_discount_derivation.2 c3Fields 45 10 5 rfl rfl rfl (Or.inl rfl)

/-- C4: for every parsed line item, the line total is the first present value
in the fixed priority order net total, extension amount, generic total, else
`round(qty*unit_price, 2)` when both operands are present, and `None` when
none of these is derivable. -/
theorem c4_line_total_priority (f : LineFields) :
    (∀ v, f.net = some v → (parseLine f).line_total = some v) ∧
    (f.net = none → ∀ v, f.ext = some v → (parseLine f).line_total = some v) ∧
    (f.net = none → f.ext = none → ∀ v, f.total = some v →
      (parseLine f).line_total = some v) ∧
    (f.net = none → f.ext = none → f.total = none → ∀ q u, f.qty = some q →
      f.unit_price = some u → (parseLine f).line_total = some (round2 (q * u))) ∧
    (f.net = none → f.ext = none → f.total = none →
      (f.qty = none ∨ f.unit_price = none) → (parseLine f).line_total = none) := by
  obtain ⟨qty, un, up, ext, net, total, de, ic, inm⟩ := f
  refine ⟨?_, ?_, ?_, ?_, ?_⟩
  · intro v hv; simp only at hv; subst hv; rfl
  · intro hn v hv; simp only at hn hv; subst hn; subst hv; rfl
  · intro hn he v hv; simp only at hn he hv; subst hn; subst he; subst hv; rfl
  · intro hn he htot q u hq hu; simp only at hn he htot hq hu
    subst hn; subst he; subst htot; subst hq; subst hu; rfl
  · intro hn he htot hqu; simp only at hn he htot
    subst hn; subst he; subst htot
    rcases hqu with hq | hu
    · simp only at hq; subst hq; rfl
    · simp only at hu; subst hu
      cases qty <;> rfl

theorem c4_line_total_priority_witness :
    (parseLine { ext := some 45, qty := some 10, unit_price := some 5 :
      LineFields }).line_total = some 45 :=
  (c4_line_total_priority _).2.1 rfl 45 rfl

/-! ## Pagination completion-hint theorems -/

/-- C5 (counterexample): a response object with `totalPages = 3` and
`page = 2`, no explicit last/isLast and no hasNext/hasMore booleans, satisfies
every premise of the claim, yet `is_last_page` already reports completion at
page 2 < 3 — the code treats `page_number + 1 >= total_pages` as last, not
only `page_number >= total_pages`. -/
theorem c5_counterexample :
    c5Obj.last = none ∧ c5Obj.isLast = none ∧ c5Obj.hasNext = none ∧
    c5Obj.hasMore = none ∧ c5Obj.has_next = none ∧ c5Obj.has_more = none ∧
    tpOf c5Obj = some 3 ∧ (0 : ℤ) < 3 ∧ pnOf c5Obj = some 2 ∧
    is_last_page c5Obj = some true ∧ ¬((2 : ℤ) ≥ 3) := by decide

/-- C5 (amended): when the listing response carries an integer total-pages
field and an integer page-number field (total-pages > 0, both after Python
`or`-chaining of their alternative keys, so zero values fall through) and no
explicit last/isLast or hasNext/hasMore boolean, the server is taken to signal
completion exactly when `page_number + 1 ≥ total_pages` (one page earlier than
the claim stated, a guard for zero-based page numbering); pages with
`page_number + 1 < total_pages` do not by themselves end the listing. -/
theorem c5_completion_signal (o : PageObj) (tp pn : Int)
    (h1 : o.last = none) (h2 : o.isLast = none) (h3 : o.hasNext = none)
    (h4 : o.hasMore = none) (h5 : o.has_next = none) (h6 : o.has_more = none)
    (htp : tpOf o = some tp) (hpos : 0 < tp) (hpn : pnOf o = some pn) :
    (is_last_page o = some true ↔ pn + 1 ≥ tp) ∧
    (pn + 1 < tp → is_last_page o = none) := by
  have hbody : is_last_page o =
      if 0 < tp then (if tp ≤ pn ∨ tp ≤ pn + 1 then some true else none)
      else none := by
    rw [is_last_page, h1, h2, h3, h4, h5, h6, htp, hpn]
  rw [hbody, if_pos hpos]
  constructor
  · by_cases hc : tp ≤ pn + 1
    · rw [if_pos (Or.inr hc)]
      simp only [ge_iff_le, hc, iff_true]
    · rw [if_neg (by omega)]
      simp only [ge_iff_le, hc, iff_false]
      intro hh; exact absurd hh (by simp)
  · intro hlt
    rw [if_neg (by omega)]

theorem c5_completion_signal_witness :
    (is_last_page c5Obj = some true ↔ (2 : ℤ) + 1 ≥ 3) ∧
    ((2 : ℤ) + 1 < 3 → is_last_page c5Obj = none) :=
  c5_completion_signal c5Obj 3 2 rfl rfl rfl rfl rfl rfl (by decide)
    (by decide) (by decide)

/-! ## Resume-ledger theorems -/

/-- C10: a missing or unparseable resume ledger file is treated as the clean
empty state — `load_resume_state` returns the empty state rather than
raising, `compute_resume_uid` on it returns none, and a run started from it
behaves exactly like a run with a fresh empty ledger (no UID scheduled for
rewrite). -/
theorem c10_corrupt_ledger_fresh_start :
    load_resume_state .missing = ({} : ResumeState) ∧
    load_resume_state .corrupt = ({} : ResumeState) ∧
    compute_resume_uid (load_resume_state .missing) = none ∧
    compute_resume_uid (load_resume_state .corrupt) = none ∧
    (∀ args listing fetch now ws,
      mainRun args listing fetch now ws (load_resume_state .missing) =
        mainRun args listing fetch now ws ({} : ResumeState) ∧
      mainRun args listing fetch now ws (load_resume_state .corrupt) =
        mainRun args listing fetch now ws ({} : ResumeState)) :=
  ⟨rfl, rfl, rfl, rfl, fun _ _ _ _ _ => ⟨rfl, rfl⟩⟩

/-! ## Schema-migration theorems -/

theorem migrateRowV1_eq (r : List CellVal) (hr : 7 ≤ r.length) :
    migrateRowV1 r = r.take 7 ++ (migCell r :: r.drop 7) := by
  have hlen7 : (r.take 7).length = 7 := by rw [List.length_take]; omega
  have hcur : (r.take 7 ++ (CellVal.empty :: r.drop 7)).getD 7 .empty = .empty := by
    rw [List.getD_append_right _ _ _ 7 (by omega), hlen7]
    simp
  have hdoc : (r.take 7 ++ (CellVal.empty :: r.drop 7)).getD 8 .empty =
      r.getD 7 .empty := by
    rw [List.getD_append_right _ _ _ 8 (by omega), hlen7]
    show (r.drop 7).getD 0 .empty = r.getD 7 .empty
    rw [List.getD_eq_getElem?_getD, List.getD_eq_getElem?_getD, List.getElem?_drop]
  show (if blankCell ((r.take 7 ++ (CellVal.empty :: r.drop 7)).getD 7 .empty) then
      if infer_tipo_documento
          (cellPyStr ((r.take 7 ++ (CellVal.empty :: r.drop 7)).getD 8 .empty)) "" ≠ "" then
        (r.take 7 ++ (CellVal.empty :: r.drop 7)).set 7
          (.str (infer_tipo_documento
            (cellPyStr ((r.take 7 ++ (CellVal.empty :: r.drop 7)).getD 8 .empty)) ""))
      else r.take 7 ++ (CellVal.empty :: r.drop 7)
    else r.take 7 ++ (CellVal.empty :: r.drop 7)) = r.take 7 ++ (migCell r :: r.drop 7)
  rw [hcur, hdoc]
  rw [if_pos (show blankCell CellVal.empty = true from rfl)]
  by_cases htipo : infer_tipo_documento (cellPyStr (r.getD 7 .empty)) "" = ""
  · rw [if_neg (not_not_intro htipo)]
    show _ = r.take 7 ++
      ((if infer_tipo_documento (cellPyStr (r.getD 7 .empty)) "" = "" then CellVal.empty
        else CellVal.str (infer_tipo_documento (cellPyStr (r.getD 7 .empty)) "")) :: r.drop 7)
    rw [if_pos htipo]
  · rw [if_pos htipo]
    rw [List.set_append, if_neg (by simp [hlen7]), hlen7]
    show r.take 7 ++ (CellVal.empty :: r.drop 7).set 0 _ = _
    rw [List.set_cons_zero]
    show _ = r.take 7 ++
      ((if infer_tipo_documento (cellPyStr (r.getD 7 .empty)) "" = "" then CellVal.empty
        else CellVal.str (infer_tipo_documento (cellPyStr (r.getD 7 .empty)) "")) :: r.drop 7)
    rw [if_neg htipo]

/-- C7: opening a table whose header equals the 17-column prior schema
migrates it in place — the result has the 18 current columns with "Tipo de
Documento" inserted between "Data Documento" and "Numero Documento", original
cell data preserved (cells before the insertion point and cells after it,
shifted by one), the new column filled by document-number-prefix inference
exactly when the inference yields a value (the new cells all start blank), and
the migrated workbook is saved before `ensure_workbook` returns; a header
matching neither schema fails hard. -/
theorem c7_schema_migration (ws ws2 : Sheet) (h : ws.header = COLUMNS_V1)
    (hlen : ∀ r ∈ ws.rows, r.length = 17)
    (h2c : ws2.header ≠ COLUMNS) (h2v : ws2.header ≠ COLUMNS_V1) :
    ensure_workbook (some ws) = .ok (⟨COLUMNS, ws.rows.map migrateRowV1⟩, true) ∧
    COLUMNS.length = 18 ∧ COLUMNS.getD 6 "" = "Data Documento" ∧
    COLUMNS.getD 7 "" = "Tipo de Documento" ∧
    COLUMNS.getD 8 "" = "Numero Documento" ∧
    (∀ r ∈ ws.rows, (migrateRowV1 r).length = 18 ∧
      (migrateRowV1 r).take 7 = r.take 7 ∧
      (migrateRowV1 r).drop 8 = r.drop 7 ∧
      (migrateRowV1 r).getD 7 .empty = migCell r) ∧
    ensure_workbook (some ws2) = .error "Excel header mismatch" := by
  have hne : ws.header ≠ COLUMNS := by rw [h]; decide
  refine ⟨?_, by decide, by decide, by decide, by decide, ?_, ?_⟩
  · simp only [ensure_workbook, if_neg hne, if_pos h]
  · intro r hrmem
    have h17 : r.length = 17 := hlen r hrmem
    have h7 : 7 ≤ r.length := by omega
    have hlen7 : (r.take 7).length = 7 := by rw [List.length_take]; omega
    rw [migrateRowV1_eq r h7]
    refine ⟨?_, ?_, ?_, ?_⟩
    · simp [List.length_append, hlen7, List.length_drop, h17]
    · exact List.take_left' hlen7
    · rw [show r.take 7 ++ migCell r :: r.drop 7 =
        (r.take 7 ++ [migCell r]) ++ r.drop 7 by simp]
      exact List.drop_left' (by simp [hlen7])
    · rw [List.getD_append_right _ _ _ 7 (by omega), hlen7]
      simp
  · simp only [ensure_workbook, if_neg h2c, if_neg h2v]

theorem c7_schema_migration_witness :
    ensure_workbook (some c7V1Sheet) =
      .ok (⟨COLUMNS, c7V1Sheet.rows.map migrateRowV1⟩, true) :=
  (c7_schema_migration c7V1Sheet c7BadSheet rfl (by decide) (by decide)
    (by decide)).1

/-! ## Listing-loop theorems -/

theorem freshUid_inj {a b : Nat} (h : freshUid a = freshUid b) : a = b := by
  have hd := congrArg String.data h
  simp only [freshUid] at hd
  have := congrArg List.length hd
  simp [List.length_replicate] at this
  omega

theorem endless_sig (n : Nat) :
    pageSignature [mkUidItem (freshUid n)] =
      .withUids (freshUid n) (freshUid n) 1 := rfl

theorem endless_dedup (seenU : List String) (page : Nat)
    (huid : freshUid page ∉ seenU) :
    dedupNewItems seenU [mkUidItem (freshUid page)] =
      (freshUid page :: seenU, [mkUidItem (freshUid page)]) := by
  simp [dedupNewItems, mkUidItem, huid]

theorem endless_go (fuel : Nat) : ∀ (page : Nat) (records : List ListItem)
    (seenU : List String) (seenG : List PageSig),
    (∀ u ∈ seenU, ∃ m, m < page ∧ u = freshUid m) →
    (∀ g ∈ seenG, ∃ m, m < page ∧ g = pageSignature [mkUidItem (freshUid m)]) →
    goList endlessServer 1 fuel page records seenU seenG =
      .error "Aborting: too many pages (possible pagination loop)." := by
  induction fuel with
  | zero =>
    intro page records seenU seenG hU hG
    have hsig : pageSignature [mkUidItem (freshUid page)] ∉ seenG := by
      intro hmem
      obtain ⟨m, hm, hgeq⟩ := hG _ hmem
      rw [endless_sig, endless_sig] at hgeq
      simp only [PageSig.withUids.injEq] at hgeq
      have := freshUid_inj hgeq.1
      omega
    have huid : freshUid page ∉ seenU := by
      intro hmem
      obtain ⟨m, hm, hueq⟩ := hU _ hmem
      have := freshUid_inj hueq.symm
      omega
    have hitems : (endlessServer page).items = [mkUidItem (freshUid page)] := rfl
    have hmeta : (endlessServer page).meta = ({} : PageObj) := rfl
    rw [goList]
    rw [hitems, hmeta]
    rw [if_neg (by simp)]
    rw [if_neg hsig]
    rw [endless_dedup _ _ huid]
    rw [if_neg (by simp)]
    rw [if_neg (by rw [show is_last_page ({} : PageObj) = none from rfl]; simp)]
    rw [if_neg (by simp)]
  | succ fuel ih =>
    intro page records seenU seenG hU hG
    have hsig : pageSignature [mkUidItem (freshUid page)] ∉ seenG := by
      intro hmem
      obtain ⟨m, hm, hgeq⟩ := hG _ hmem
      rw [endless_sig, endless_sig] at hgeq
      simp only [PageSig.withUids.injEq] at hgeq
      have := freshUid_inj hgeq.1
      omega
    have huid : freshUid page ∉ seenU := by
      intro hmem
      obtain ⟨m, hm, hueq⟩ := hU _ hmem
      have := freshUid_inj hueq.symm
      omega
    have hitems : (endlessServer page).items = [mkUidItem (freshUid page)] := rfl
    have hmeta : (endlessServer page).meta = ({} : PageObj) := rfl
    rw [goList]
    rw [hitems, hmeta]
    rw [if_neg (by simp)]
    rw [if_neg hsig]
    rw [endless_dedup _ _ huid]
    rw [if_neg (by simp)]
    rw [if_neg (by rw [show is_last_page ({} : PageObj) = none from rfl]; simp)]
    rw [if_neg (by simp)]
    exact ih (page + 1) _ _ _
      (by
        intro u hu
        rcases List.mem_cons.mp hu with rfl | hu2
        · exact ⟨page, by omega, rfl⟩
        · obtain ⟨m, hm, hueq⟩ := hU u hu2
          exact ⟨m, by omega, hueq⟩)
      (by
        intro g hg
        rcases List.mem_cons.mp hg with rfl | hg2
        · exact ⟨page, by omega, rfl⟩
        · obtain ⟨m, hm, hgeq⟩ := hG g hg2
          exact ⟨m, by omega, hgeq⟩)

/-- C6: the listing loop terminates instead of hanging — against an endpoint
that serves two distinct full pages and then repeats page 3 forever, it
detects the repeated page signature and returns exactly the unique items
collected through page 3; and against an endpoint that serves fresh full
pages forever (so no stop condition ever fires), the 10000-page circuit
breaker raises a fatal error rather than looping. -/
theorem c6_pagination_loop_safety :
    list_dfes repeatingServer 2 = .ok [mkUidItem "AA1", mkUidItem "AA2",
      mkUidItem "BB1", mkUidItem "BB2", mkUidItem "CC1", mkUidItem "CC2"] ∧
    list_dfes endlessServer 1 =
      .error "Aborting: too many pages (possible pagination loop)." := by
  constructor
  · rfl
  · exact endless_go 9999 1 [] [] [] (by simp) (by simp)

/-! ## Table-row lemmas -/

theorem rowKey_mkErrorRow (uid reason now : String) (h1 : pyStrip uid = uid)
    (h2 : uid ≠ "") : rowKey (mkErrorRow uid reason now) = some uid := by
  simp [rowKey, mkErrorRow, h1, h2]

theorem rowKey_mkLineRow (uid efdate : String) (meta : Meta) (tipo : String)
    (ln : LineRec) (now : String) (h1 : pyStrip uid = uid) (h2 : uid ≠ "") :
    rowKey (mkLineRow uid efdate meta tipo ln now) = some uid := by
  simp [rowKey, mkLineRow, h1, h2]

theorem backfillRow_key_none (f : String → Option String) (now : String)
    (r : Row) (hk : rowKey r = none) : backfillRow f now r = r := by
  simp only [backfillRow, hk]

theorem backfillRow_of_key (f : String → Option String) (now : String) (r : Row)
    (u : String) (hk : rowKey r = some u) :
    backfillRow f now r =
      (match f u with
       | some ef =>
         if blankCell r.dataEf then { r with dataEf := .str ef, lastUpdated := .str now }
         else r
       | none => r) := by
  simp only [backfillRow, hk]

theorem rowKey_backfillRow (f : String → Option String) (now : String) (r : Row) :
    rowKey (backfillRow f now r) = rowKey r := by
  cases hk : rowKey r with
  | none => rw [backfillRow_key_none f now r hk]; exact hk
  | some u =>
    rw [backfillRow_of_key f now r u hk]
    cases hf : f u with
    | none => exact hk
    | some ef =>
      by_cases hb : blankCell r.dataEf = true
      · show rowKey (if blankCell r.dataEf = true then _ else _) = _
        rw [if_pos hb]
        exact hk
      · show rowKey (if blankCell r.dataEf = true then _ else _) = _
        rw [if_neg hb]
        exact hk

theorem rowsFor_append (ws l : List Row) (u : String) :
    rowsFor (ws ++ l) u = rowsFor ws u ++ rowsFor l u := by
  simp [rowsFor, List.filter_append]

theorem mem_tableUids {ws : List Row} {u : String} :
    u ∈ tableUids ws ↔ rowsFor ws u ≠ [] := by
  rw [tableUids, rowsFor]
  constructor
  · intro h
    obtain ⟨r, hr, hk⟩ := List.mem_filterMap.mp h
    intro hnil
    have : r ∈ List.filter (fun r => decide (rowKey r = some u)) ws :=
      List.mem_filter.mpr ⟨hr, by simp [hk]⟩
    rw [hnil] at this
    simp at this
  · intro h
    obtain ⟨r, hr⟩ := List.exists_mem_of_ne_nil _ h
    have := List.mem_filter.mp hr
    exact List.mem_filterMap.mpr ⟨r, this.1, by simpa using this.2⟩

theorem delete_eq_filter (ws : List Row) (uid : String) (h1 : pyStrip uid = uid)
    (h2 : uid ≠ "") :
    delete_uid_rows ws uid = ws.filter (fun r => ¬(rowKey r = some uid)) := by
  rw [delete_uid_rows]
  simp only [h1]
  rw [if_neg h2]
  apply List.filter_congr
  intro r _
  cases hu : r.uid with
  | empty => simp [rowKey, hu]
  | num q => simp [rowKey, hu]
  | str s =>
    by_cases hs : pyStrip s = ""
    · simp [rowKey, hu, hs]
      intro hh
      exact absurd hh.symm h2
    · simp [rowKey, hu, hs]

theorem rowsFor_delete (ws : List Row) (uid u : String) (h1 : pyStrip uid = uid)
    (h2 : uid ≠ "") :
    rowsFor (delete_uid_rows ws uid) u =
      if u = uid then [] else rowsFor ws u := by
  rw [delete_eq_filter ws uid h1 h2, rowsFor, List.filter_filter]
  by_cases h : u = uid
  · subst h
    rw [if_pos rfl]
    apply List.filter_eq_nil_iff.mpr
    intro r _
    simp
  · rw [if_neg h, rowsFor]
    apply List.filter_congr
    intro r _
    by_cases hk : rowKey r = some u
    · have : ¬(rowKey r = some uid) := by
        rw [hk]
        simp
        intro hh
        exact h hh
      simp [hk, this]
      exact h
    · simp [hk]

theorem rowsFor_backfill (ws : List Row) (f : String → Option String)
    (now : String) (u : String) :
    rowsFor (backfill_efatura_dates ws f now) u =
      (rowsFor ws u).map (backfillRow f now) := by
  rw [backfill_efatura_dates, rowsFor, rowsFor, List.filter_map]
  congr 1
  apply List.filter_congr
  intro r _
  simp [Function.comp, rowKey_backfillRow]

theorem tableUids_append (ws l : List Row) :
    tableUids (ws ++ l) = tableUids ws ++ tableUids l := by
  simp [tableUids, List.filterMap_append]

theorem tableUids_backfill (ws : List Row) (f : String → Option String)
    (now : String) :
    tableUids (backfill_efatura_dates ws f now) = tableUids ws := by
  rw [backfill_efatura_dates, tableUids, List.filterMap_map]
  rw [show (rowKey ∘ backfillRow f now) = rowKey from
    funext (fun r => rowKey_backfillRow f now r)]
  rfl

theorem tableUids_delete_sub {ws : List Row} {uid u : String}
    (h : u ∈ tableUids (delete_uid_rows ws uid)) : u ∈ tableUids ws := by
  rw [mem_tableUids] at h ⊢
  intro hnil
  apply h
  rw [delete_uid_rows]
  by_cases he : pyStrip uid = ""
  · rw [if_pos he]; exact hnil
  · rw [if_neg he, rowsFor, List.filter_comm, ← rowsFor, hnil]
    simp

/-! ## Sorting / de-duplication / set lemmas -/

theorem mem_insertSorted {x a : String} {l : List String} :
    a ∈ insertSorted x l ↔ a = x ∨ a ∈ l := by
  induction l with
  | nil => simp [insertSorted]
  | cons y ys ih =>
    rw [insertSorted]
    by_cases h : pyStrLe x y = true
    · rw [if_pos h]
      simp [List.mem_cons]
    · rw [if_neg h]
      simp only [List.mem_cons, ih]
      tauto

theorem mem_sortStrings {a : String} {l : List String} :
    a ∈ sortStrings l ↔ a ∈ l := by
  induction l with
  | nil => simp [sortStrings]
  | cons x xs ih =>
    show a ∈ insertSorted x (sortStrings xs) ↔ _
    rw [mem_insertSorted, ih]
    simp

theorem nodup_insertSorted {x : String} {l : List String} (hx : x ∉ l)
    (hl : l.Nodup) : (insertSorted x l).Nodup := by
  induction l with
  | nil => simp [insertSorted]
  | cons y ys ih =>
    rw [insertSorted]
    by_cases h : pyStrLe x y = true
    · rw [if_pos h]
      exact List.nodup_cons.mpr ⟨hx, hl⟩
    · rw [if_neg h]
      rw [List.nodup_cons] at hl
      refine List.nodup_cons.mpr ⟨?_, ih (fun hm => hx (by simp [hm])) hl.2⟩
      intro hy
      rcases mem_insertSorted.mp hy with rfl | hy'
      · exact hx (by simp)
      · exact hl.1 hy'

theorem nodup_sortStrings {l : List String} (h : l.Nodup) :
    (sortStrings l).Nodup := by
  induction l with
  | nil => simp [sortStrings]
  | cons x xs ih =>
    rw [List.nodup_cons] at h
    show (insertSorted x (sortStrings xs)).Nodup
    exact nodup_insertSorted (fun hm => h.1 (mem_sortStrings.mp hm)) (ih h.2)

theorem mem_firstDedupAux {a : String} : ∀ {l seen : List String},
    a ∈ firstDedupAux l seen ↔ a ∈ l ∧ a ∉ seen := by
  intro l
  induction l with
  | nil => intro seen; simp [firstDedupAux]
  | cons x xs ih =>
    intro seen
    rw [firstDedupAux]
    by_cases h : x ∈ seen
    · rw [if_pos h, ih]
      constructor
      · rintro ⟨hmem, hns⟩
        exact ⟨by simp [hmem], hns⟩
      · rintro ⟨hmem, hns⟩
        rcases List.mem_cons.mp hmem with rfl | hmem'
        · exact absurd h hns
        · exact ⟨hmem', hns⟩
    · rw [if_neg h]
      constructor
      · intro hmem
        rcases List.mem_cons.mp hmem with rfl | hmem'
        · exact ⟨by simp, h⟩
        · obtain ⟨h1, h2⟩ := ih.mp hmem'
          exact ⟨by simp [h1], fun hs => h2 (by simp [hs])⟩
      · rintro ⟨hmem, hns⟩
        rcases List.mem_cons.mp hmem with rfl | hmem'
        · exact List.mem_cons_self _ _
        · by_cases hax : a = x
          · subst hax; exact List.mem_cons_self _ _
          · exact List.mem_cons_of_mem _
              (ih.mpr ⟨hmem', by simp [hax, hns]⟩)

theorem nodup_firstDedupAux : ∀ {l seen : List String},
    (firstDedupAux l seen).Nodup := by
  intro l
  induction l with
  | nil => intro seen; simp [firstDedupAux]
  | cons x xs ih =>
    intro seen
    rw [firstDedupAux]
    by_cases h : x ∈ seen
    · rw [if_pos h]; exact ih
    · rw [if_neg h]
      refine List.nodup_cons.mpr ⟨?_, ih⟩
      intro hmem
      exact (mem_firstDedupAux.mp hmem).2 (by simp)

theorem mem_dictKeys {a : String} {l : List String} :
    a ∈ dictKeys l ↔ a ∈ l := by
  rw [dictKeys, mem_firstDedupAux]
  simp

theorem nodup_dictKeys {l : List String} : (dictKeys l).Nodup :=
  nodup_firstDedupAux

theorem mem_addUid {l : List String} {u a : String} :
    a ∈ addUid l u ↔ a = u ∨ a ∈ l := by
  rw [addUid]
  by_cases h : u ∈ l
  · rw [if_pos h]
    constructor
    · exact Or.inr
    · rintro (rfl | hm) <;> [exact h; exact hm]
  · rw [if_neg h]
    simp

/-! ## Row/UID invariant lemmas -/

theorem rowInv_iff {ws : List Row} :
    rowInv ws = true ↔ ∀ u ∈ tableUids ws, rowsOk (rowsFor ws u) = true := by
  rw [rowInv, List.all_eq_true]

theorem rowsOk_nil : rowsOk [] = true := by decide

theorem rowsOk_singleton (r : Row) : rowsOk [r] = true := by
  cases h : isErrRow r <;> simp [rowsOk, h]

theorem isErrRow_mkLineRow (uid efdate : String) (meta : Meta) (tipo : String)
    (ln : LineRec) (now : String) :
    isErrRow (mkLineRow uid efdate meta tipo ln now) = false := rfl

theorem headerPart_mkLineRow_const (uid efdate : String) (meta : Meta)
    (tipo : String) (ln ln' : LineRec) (now : String) :
    headerPart (mkLineRow uid efdate meta tipo ln now) =
      headerPart (mkLineRow uid efdate meta tipo ln' now) := rfl

theorem rowsOk_of_all {rs : List Row}
    (h1 : rs.all (fun r => !isErrRow r) = true)
    (h2 : rs.all (fun r => rs.all
      (fun r' => decide (headerPart r = headerPart r'))) = true) :
    rowsOk rs = true := by
  unfold rowsOk
  rw [h1, h2]
  rfl

theorem rowsOk_mkLineRows (uid efdate : String) (meta : Meta) (tipo : String)
    (lines : List LineRec) (now : String) :
    rowsOk (lines.map (fun ln => mkLineRow uid efdate meta tipo ln now)) = true := by
  apply rowsOk_of_all
  · rw [List.all_eq_true]
    intro r hr
    obtain ⟨ln, -, rfl⟩ := List.mem_map.mp hr
    simp [isErrRow_mkLineRow]
  · rw [List.all_eq_true]
    intro r hr
    obtain ⟨ln, -, rfl⟩ := List.mem_map.mp hr
    rw [List.all_eq_true]
    intro r' hr'
    obtain ⟨ln', -, rfl⟩ := List.mem_map.mp hr'
    simp [headerPart_mkLineRow_const uid efdate meta tipo ln ln' now]

theorem isErrRow_backfillRow (f : String → Option String) (now : String)
    (r : Row) : isErrRow (backfillRow f now r) = isErrRow r := by
  cases hk : rowKey r with
  | none => rw [backfillRow_key_none f now r hk]
  | some u =>
    rw [backfillRow_of_key f now r u hk]
    cases hf : f u with
    | none => rfl
    | some ef =>
      by_cases hb : blankCell r.dataEf = true
      · show isErrRow (if blankCell r.dataEf = true then _ else _) = _
        rw [if_pos hb]
        rfl
      · show isErrRow (if blankCell r.dataEf = true then _ else _) = _
        rw [if_neg hb]

theorem headerPart_eq_iff {r r' : Row} :
    headerPart r = headerPart r' ↔
      (r.uid = r'.uid ∧ r.erro = r'.erro ∧ r.nome = r'.nome ∧ r.nif = r'.nif ∧
       r.morada = r'.morada ∧ r.dataEf = r'.dataEf ∧ r.dataDoc = r'.dataDoc ∧
       r.tipoDoc = r'.tipoDoc ∧ r.numDoc = r'.numDoc ∧
       r.lastUpdated = r'.lastUpdated ∧ r.exported = r'.exported) := by
  simp [headerPart]

theorem rowKey_congr {r r' : Row} (h : r.uid = r'.uid) : rowKey r = rowKey r' := by
  rw [rowKey, rowKey, h]

theorem headerPart_backfillRow_congr (f : String → Option String) (now : String)
    {a b : Row} (h : headerPart a = headerPart b) :
    headerPart (backfillRow f now a) = headerPart (backfillRow f now b) := by
  obtain ⟨h1, h2, h3, h4, h5, h6, h7, h8, h9, h10, h11⟩ := headerPart_eq_iff.mp h
  have hk : rowKey a = rowKey b := rowKey_congr h1
  cases hka : rowKey a with
  | none =>
    rw [backfillRow_key_none f now a hka, backfillRow_key_none f now b (hk ▸ hka)]
    exact h
  | some u =>
    rw [backfillRow_of_key f now a u hka, backfillRow_of_key f now b u (hk ▸ hka)]
    cases hf : f u with
    | none => exact h
    | some ef =>
      by_cases hb : blankCell a.dataEf = true
      · show headerPart (if blankCell a.dataEf = true then _ else _) =
          headerPart (if blankCell b.dataEf = true then _ else _)
        rw [if_pos hb, if_pos (h6 ▸ hb)]
        rw [headerPart_eq_iff]
        exact ⟨h1, h2, h3, h4, h5, rfl, h7, h8, h9, rfl, h11⟩
      · show headerPart (if blankCell a.dataEf = true then _ else _) =
          headerPart (if blankCell b.dataEf = true then _ else _)
        rw [if_neg hb, if_neg (h6 ▸ hb)]
        exact h

theorem rowsOk_map_backfill (f : String → Option String) (now : String)
    {rs : List Row} (h : rowsOk rs = true) :
    rowsOk (rs.map (backfillRow f now)) = true := by
  cases rs with
  | nil => exact rowsOk_nil
  | cons r0 rest =>
    cases rest with
    | nil => exact rowsOk_singleton _
    | cons r1 rest2 =>
      have h' : ((r0 :: r1 :: rest2).all (fun r => !isErrRow r) &&
          (r0 :: r1 :: rest2).all (fun r => (r0 :: r1 :: rest2).all
            (fun r' => decide (headerPart r = headerPart r')))) = true := by
        have hb : rowsOk (r0 :: r1 :: rest2) =
            (((r0 :: r1 :: rest2).all (fun r => !isErrRow r) &&
              (r0 :: r1 :: rest2).all (fun r => (r0 :: r1 :: rest2).all
                (fun r' => decide (headerPart r = headerPart r')))) || false) := rfl
        rw [hb, Bool.or_false] at h
        exact h
      rw [Bool.and_eq_true, List.all_eq_true, List.all_eq_true] at h'
      obtain ⟨hne, hpair⟩ := h'
      apply rowsOk_of_all
      · rw [List.all_eq_true]
        intro r hr
        obtain ⟨a, ha, rfl⟩ := List.mem_map.mp hr
        rw [isErrRow_backfillRow]
        exact hne a ha
      · rw [List.all_eq_true]
        intro r hr
        obtain ⟨a, ha, rfl⟩ := List.mem_map.mp hr
        rw [List.all_eq_true]
        intro r2 hr2
        obtain ⟨b, hb2, rfl⟩ := List.mem_map.mp hr2
        have := hpair a ha
        rw [List.all_eq_true] at this
        have hab := this b hb2
        rw [decide_eq_true_eq] at hab
        simp [headerPart_backfillRow_congr f now hab]

theorem rowInv_backfill (ws : List Row) (f : String → Option String)
    (now : String) (h : rowInv ws = true) :
    rowInv (backfill_efatura_dates ws f now) = true := by
  rw [rowInv_iff] at h ⊢
  intro u hu
  rw [tableUids_backfill] at hu
  rw [rowsFor_backfill]
  exact rowsOk_map_backfill f now (h u hu)

theorem rowsFor_new_rows {new : List Row} {uid : String}
    (hkeys : ∀ r ∈ new, rowKey r = some uid) (u : String) :
    rowsFor new u = if u = uid then new else [] := by
  by_cases h : u = uid
  · subst h
    rw [if_pos rfl, rowsFor]
    apply List.filter_eq_self.mpr
    intro r hr
    simp [hkeys r hr]
  · rw [if_neg h, rowsFor]
    apply List.filter_eq_nil_iff.mpr
    intro r hr
    simp [hkeys r hr]
    intro hh
    exact absurd hh.symm h

theorem tableUids_new_rows {new : List Row} {uid : String}
    (hkeys : ∀ r ∈ new, rowKey r = some uid) :
    ∀ u ∈ tableUids new, u = uid := by
  intro u hu
  obtain ⟨r, hr, hk⟩ := List.mem_filterMap.mp hu
  rw [hkeys r hr] at hk
  exact (Option.some.inj hk).symm

theorem mkErrorRow_keys (uid reason now : String) (h1 : pyStrip uid = uid)
    (h2 : uid ≠ "") : ∀ r ∈ [mkErrorRow uid reason now], rowKey r = some uid := by
  intro r hr
  rw [List.mem_singleton] at hr
  subst hr
  exact rowKey_mkErrorRow uid reason now h1 h2

theorem mkLineRow_keys (uid efdate : String) (meta : Meta) (tipo : String)
    (lines : List LineRec) (now : String) (h1 : pyStrip uid = uid)
    (h2 : uid ≠ "") :
    ∀ r ∈ lines.map (fun ln => mkLineRow uid efdate meta tipo ln now),
      rowKey r = some uid := by
  intro r hr
  obtain ⟨ln, -, rfl⟩ := List.mem_map.mp hr
  exact rowKey_mkLineRow uid efdate meta tipo ln now h1 h2

theorem append_fresh_inv {ws0 : List Row} {existing : List String} {uid : String}
    (hinv0 : rowInv ws0 = true)
    (hsub0 : ∀ u ∈ tableUids ws0, u ∈ existing)
    (hempty : rowsFor ws0 uid = [])
    {new : List Row} (hkeys : ∀ r ∈ new, rowKey r = some uid)
    (hok : rowsOk new = true) :
    rowInv (ws0 ++ new) = true ∧
    (∀ u ∈ tableUids (ws0 ++ new), u ∈ addUid existing uid) := by
  constructor
  · rw [rowInv_iff]
    intro u hu
    rw [rowsFor_append, rowsFor_new_rows hkeys]
    by_cases h : u = uid
    · subst h
      rw [if_pos rfl, hempty, List.nil_append]
      exact hok
    · rw [if_neg h, List.append_nil]
      rw [tableUids_append, List.mem_append] at hu
      rcases hu with hu | hu
      · exact rowInv_iff.mp hinv0 u hu
      · exact absurd (tableUids_new_rows hkeys u hu) h
  · intro u hu
    rw [tableUids_append, List.mem_append] at hu
    rcases hu with hu | hu
    · exact mem_addUid.mpr (Or.inr (hsub0 u hu))
    · exact mem_addUid.mpr (Or.inl (tableUids_new_rows hkeys u hu))

theorem processUid_inv (args : SyncArgs) (fetch : String → FetchResult)
    (ef : String → Option String) (now : String) (s : StepState) (uid : String)
    (hu1 : pyStrip uid = uid) (hu2 : uid ≠ "")
    (hinv : rowInv s.ws = true)
    (hsub : ∀ u ∈ tableUids s.ws, u ∈ s.existing) :
    rowInv (processUid args fetch ef now s uid).ws = true ∧
    ∀ u ∈ tableUids (processUid args fetch ef now s uid).ws,
      u ∈ (processUid args fetch ef now s uid).existing := by
  simp only [processUid]
  by_cases hab : s.aborted = true
  · rw [if_pos hab]; exact ⟨hinv, hsub⟩
  · rw [if_neg hab]
    by_cases hmax : args.maxDocs ≠ 0 ∧ args.maxDocs ≤ s.addedDocs
    · rw [if_pos hmax]; exact ⟨hinv, hsub⟩
    · rw [if_neg hmax]
      by_cases hskip : (uid ∈ s.existing) ∧
          ¬(args.rewriteExisting = true ∨ s.resumeUid = some uid)
      · rw [if_pos hskip]; exact ⟨hinv, hsub⟩
      · rw [if_neg hskip]
        by_cases hex : uid ∈ s.existing
        · have hrw : args.rewriteExisting = true ∨ s.resumeUid = some uid := by
            by_contra hnr
            exact hskip ⟨hex, hnr⟩
          rw [if_pos ⟨hex, hrw⟩]
          have hinv0 : rowInv (delete_uid_rows s.ws uid) = true := by
            rw [rowInv_iff]
            intro u hu
            have husub := tableUids_delete_sub hu
            have hne : u ≠ uid := by
              intro hequ
              subst hequ
              rw [mem_tableUids, rowsFor_delete s.ws u u hu1 hu2,
                if_pos rfl] at hu
              exact hu rfl
            rw [rowsFor_delete s.ws uid u hu1 hu2, if_neg hne]
            exact rowInv_iff.mp hinv u husub
          have hsub0 : ∀ u ∈ tableUids (delete_uid_rows s.ws uid),
              u ∈ s.existing := fun u hu => hsub u (tableUids_delete_sub hu)
          have hempty0 : rowsFor (delete_uid_rows s.ws uid) uid = [] := by
            rw [rowsFor_delete s.ws uid uid hu1 hu2, if_pos rfl]
          cases hdo : docOutcome fetch uid with
          | auth => exact ⟨hinv0, hsub0⟩
          | errExc msg =>
            exact append_fresh_inv hinv0 hsub0 hempty0
              (mkErrorRow_keys uid msg now hu1 hu2) (rowsOk_singleton _)
          | errNoLines msg =>
            exact append_fresh_inv hinv0 hsub0 hempty0
              (mkErrorRow_keys uid msg now hu1 hu2) (rowsOk_singleton _)
          | docRows meta lines =>
            exact append_fresh_inv hinv0 hsub0 hempty0
              (mkLineRow_keys uid ((ef uid).getD "") meta
                (infer_tipo_documento meta.document_number meta.doc_kind)
                lines now hu1 hu2)
              (rowsOk_mkLineRows uid ((ef uid).getD "") meta
                (infer_tipo_documento meta.document_number meta.doc_kind)
                lines now)
        · rw [if_neg (fun hc => hex hc.1)]
          have hempty0 : rowsFor s.ws uid = [] := by
            by_contra hne
            exact hex (hsub uid (mem_tableUids.mpr hne))
          cases hdo : docOutcome fetch uid with
          | auth => exact ⟨hinv, hsub⟩
          | errExc msg =>
            exact append_fresh_inv hinv hsub hempty0
              (mkErrorRow_keys uid msg now hu1 hu2) (rowsOk_singleton _)
          | errNoLines msg =>
            exact append_fresh_inv hinv hsub hempty0
              (mkErrorRow_keys uid msg now hu1 hu2) (rowsOk_singleton _)
          | docRows meta lines =>
            exact append_fresh_inv hinv hsub hempty0
              (mkLineRow_keys uid ((ef uid).getD "") meta
                (infer_tipo_documento meta.document_number meta.doc_kind)
                lines now hu1 hu2)
              (rowsOk_mkLineRows uid ((ef uid).getD "") meta
                (infer_tipo_documento meta.document_number meta.doc_kind)
                lines now)

theorem foldl_processUid_inv (args : SyncArgs) (fetch : String → FetchResult)
    (ef : String → Option String) (now : String) :
    ∀ (uids : List String) (s : StepState),
    (∀ u ∈ uids, pyStrip u = u ∧ u ≠ "") →
    rowInv s.ws = true → (∀ u ∈ tableUids s.ws, u ∈ s.existing) →
    rowInv (uids.foldl (processUid args fetch ef now) s).ws = true ∧
    ∀ u ∈ tableUids (uids.foldl (processUid args fetch ef now) s).ws,
      u ∈ (uids.foldl (processUid args fetch ef now) s).existing := by
  intro uids
  induction uids with
  | nil => intro s _ hinv hsub; exact ⟨hinv, hsub⟩
  | cons x xs ih =>
    intro s h hinv hsub
    rw [List.foldl_cons]
    obtain ⟨hx1, hx2⟩ := h x (by simp)
    obtain ⟨hi, hs⟩ := processUid_inv args fetch ef now s x hx1 hx2 hinv hsub
    exact ih _ (fun u hu => h u (by simp [hu])) hi hs

/-- C1: after a run of the sync driver on a table satisfying the row/UID
invariant (for every UID, either all its rows are line-item rows agreeing on
every non-item-level cell, or it has exactly one error row — never mixed,
never more than one error row), the resulting table satisfies the invariant
again. The hypothesis on the listing reflects that `extract_uid_from_item`
returns stripped, regex-validated (hence non-empty) UIDs. -/
theorem c1_row_uid_invariant (args : SyncArgs)
    (listing : List (String × Option String)) (fetch : String → FetchResult)
    (now : String) (ws : List Row) (ledger : ResumeState)
    (hl : ∀ p ∈ listing, pyStrip p.1 = p.1 ∧ p.1 ≠ "")
    (hinv : rowInv ws = true) :
    rowInv (mainRun args listing fetch now ws ledger).ws = true := by
  rw [mainRun]
  refine (foldl_processUid_inv args fetch (listingEfdateMap listing) now
    (sortStrings (dictKeys (listing.map Prod.fst)))
    _ ?_ ?_ ?_).1
  · intro u hu
    rw [mem_sortStrings, mem_dictKeys] at hu
    obtain ⟨p, hp, rfl⟩ := List.mem_map.mp hu
    exact hl p hp
  · exact rowInv_backfill ws (listingEfdateMap listing) now hinv
  · intro u hu
    rw [tableUids_backfill] at hu
    exact hu

theorem c1_row_uid_invariant_witness :
    (∀ p ∈ c8Listing, pyStrip p.1 = p.1 ∧ p.1 ≠ "") ∧ rowInv [] = true ∧
    rowInv (mainRun {} c8Listing c8Fetch "t" [] {}).ws = true :=
  ⟨by decide, by decide,
    c1_row_uid_invariant {} c8Listing c8Fetch "t" [] {} (by decide) (by decide)⟩

/-! ## Second-run (idempotence) theorems -/

theorem processUid_skip (args : SyncArgs) (fetch : String → FetchResult)
    (ef : String → Option String) (now : String) (s : StepState) (uid : String)
    (hrw : args.rewriteExisting = false) (hres : s.resumeUid = none)
    (hex : uid ∈ s.existing) (hab : s.aborted = false)
    (hdocs : s.addedDocs = 0) :
    processUid args fetch ef now s uid = s := by
  simp only [processUid]
  rw [if_neg (by rw [hab]; simp)]
  rw [if_neg (by rintro ⟨h1, h2⟩; rw [hdocs] at h2; omega)]
  rw [if_pos ⟨hex, by rw [hrw, hres]; simp⟩]

theorem foldl_skip (args : SyncArgs) (fetch : String → FetchResult)
    (ef : String → Option String) (now : String) :
    ∀ (uids : List String) (s : StepState),
    (∀ u ∈ uids, u ∈ s.existing) → args.rewriteExisting = false →
    s.resumeUid = none → s.aborted = false → s.addedDocs = 0 →
    uids.foldl (processUid args fetch ef now) s = s := by
  intro uids
  induction uids with
  | nil => intro s _ _ _ _ _; rfl
  | cons x xs ih =>
    intro s h hrw hres hab hdocs
    rw [List.foldl_cons,
      processUid_skip args fetch ef now s x hrw hres (h x (by simp)) hab hdocs]
    exact ih s (fun u hu => h u (by simp [hu])) hrw hres hab hdocs

/-- C8 (amended): running the sync again over the same date range with no
rewrite flag and a clean resume ledger, when every listed UID is already in
the table, finds 0 new documents (no document processed, no row appended or
deleted, no error recorded) and leaves the table unchanged except for the
pre-loop "Data eFatura" backfill, which fills the blank "Data eFatura" cell
(and `last_updated`) of rows — in particular error rows, which are written
with that cell blank — whose UID has a date in the listing. -/
theorem c8_second_run (args : SyncArgs)
    (listing : List (String × Option String)) (fetch : String → FetchResult)
    (now : String) (ws : List Row) (ledger : ResumeState)
    (hrw : args.rewriteExisting = false)
    (hres : compute_resume_uid ledger = none)
    (hmem : ∀ p ∈ listing, p.1 ∈ tableUids ws) :
    (mainRun args listing fetch now ws ledger).ws =
      backfill_efatura_dates ws (listingEfdateMap listing) now ∧
    (mainRun args listing fetch now ws ledger).addedDocs = 0 ∧
    (mainRun args listing fetch now ws ledger).addedRows = 0 ∧
    (mainRun args listing fetch now ws ledger).errors = 0 := by
  rw [mainRun]
  rw [foldl_skip args fetch (listingEfdateMap listing) now _ _
    (by
      intro u hu
      rw [mem_sortStrings, mem_dictKeys] at hu
      obtain ⟨p, hp, rfl⟩ := List.mem_map.mp hu
      exact hmem p hp)
    hrw (by exact hres) rfl rfl]
  exact ⟨rfl, rfl, rfl, rfl⟩

theorem c8_second_run_witness :
    (∀ p ∈ c8Listing, p.1 ∈ tableUids c8Run1.ws) ∧
    (mainRun {} c8Listing c8Fetch "t" c8Run1.ws c8Run1.resume).addedDocs = 0 :=
  ⟨by decide,
    (c8_second_run {} c8Listing c8Fetch "t" c8Run1.ws c8Run1.resume rfl
      (by decide) (by decide)).2.1⟩

/-- C8 (counterexample): the claim "running the sync twice consecutively with
no rewrite flag leaves the table unchanged" fails on the code: with one
listed document (carrying an authorized date) whose XML yields no lines, the
first run records an error row with a blank "Data eFatura" cell; the second
run finds 0 new documents but its pre-loop backfill fills that blank cell, so
a cell of an existing row is modified. -/
theorem c8_counterexample :
    c8Run2.addedDocs = 0 ∧
    c8Run1.ws.map (fun r => r.dataEf) = [CellVal.empty] ∧
    c8Run2.ws.map (fun r => r.dataEf) = [CellVal.str "2024-01-02"] ∧
    c8Run2.ws ≠ c8Run1.ws := by decide

/-! ## Resumption lemmas -/

theorem docOutcome_ne_auth {fetch : String → FetchResult} {uid : String}
    (h : fetch uid ≠ .authFail) : docOutcome fetch uid ≠ .auth := by
  rw [docOutcome]
  cases hf : fetch uid with
  | authFail => exact absurd hf h
  | err msg => simp
  | ok meta lines =>
    simp only []
    split <;> first
    | (split <;> simp)
    | simp

theorem processUid_rowsFor_other (args : SyncArgs) (fetch : String → FetchResult)
    (ef : String → Option String) (now : String) (s : StepState) (uid s0 : String)
    (hu1 : pyStrip uid = uid) (hu2 : uid ≠ "") (hne : uid ≠ s0) :
    rowsFor (processUid args fetch ef now s uid).ws s0 = rowsFor s.ws s0 := by
  have hne' : s0 ≠ uid := fun h => hne h.symm
  simp only [processUid]
  by_cases hab : s.aborted = true
  · rw [if_pos hab]
  · rw [if_neg hab]
    by_cases hmax : args.maxDocs ≠ 0 ∧ args.maxDocs ≤ s.addedDocs
    · rw [if_pos hmax]
    · rw [if_neg hmax]
      by_cases hskip : (uid ∈ s.existing) ∧
          ¬(args.rewriteExisting = true ∨ s.resumeUid = some uid)
      · rw [if_pos hskip]
      · rw [if_neg hskip]
        have hws0 : ∀ (b : Prop) [Decidable b],
            rowsFor (if b then delete_uid_rows s.ws uid else s.ws) s0 =
              rowsFor s.ws s0 := by
          intro b _
          by_cases hb : b
          · rw [if_pos hb, rowsFor_delete s.ws uid s0 hu1 hu2, if_neg hne']
          · rw [if_neg hb]
        cases hdo : docOutcome fetch uid with
        | auth => exact hws0 _
        | errExc msg =>
          show rowsFor (append_error_row _ uid msg now) s0 = _
          rw [append_error_row, rowsFor_append,
            rowsFor_new_rows (mkErrorRow_keys uid msg now hu1 hu2), if_neg hne',
            List.append_nil]
          exact hws0 _
        | errNoLines msg =>
          show rowsFor (append_error_row _ uid msg now) s0 = _
          rw [append_error_row, rowsFor_append,
            rowsFor_new_rows (mkErrorRow_keys uid msg now hu1 hu2), if_neg hne',
            List.append_nil]
          exact hws0 _
        | docRows meta lines =>
          show rowsFor (append_line_rows _ uid ((ef uid).getD "") meta lines now) s0 = _
          rw [append_line_rows, rowsFor_append,
            rowsFor_new_rows (mkLineRow_keys uid ((ef uid).getD "") meta
              (infer_tipo_documento meta.document_number meta.doc_kind)
              lines now hu1 hu2), if_neg hne',
            List.append_nil]
          exact hws0 _

theorem processUid_state (args : SyncArgs) (fetch : String → FetchResult)
    (ef : String → Option String) (now : String) (s : StepState) (uid : String)
    (hmax : args.maxDocs = 0) (hauth : docOutcome fetch uid ≠ .auth)
    (hab : s.aborted = false) :
    (processUid args fetch ef now s uid).aborted = false ∧
    ((processUid args fetch ef now s uid).resumeUid = s.resumeUid ∨
      (s.resumeUid = some uid ∧
        (processUid args fetch ef now s uid).resumeUid = none)) ∧
    ((processUid args fetch ef now s uid).existing = s.existing ∨
      (processUid args fetch ef now s uid).existing = addUid s.existing uid) := by
  simp only [processUid]
  rw [if_neg (by rw [hab]; simp)]
  rw [if_neg (by rintro ⟨h1, -⟩; exact h1 hmax)]
  by_cases hskip : (uid ∈ s.existing) ∧
      ¬(args.rewriteExisting = true ∨ s.resumeUid = some uid)
  · rw [if_pos hskip]
    exact ⟨hab, Or.inl rfl, Or.inl rfl⟩
  · rw [if_neg hskip]
    cases hdo : docOutcome fetch uid with
    | auth => exact absurd hdo hauth
    | errExc msg =>
      refine ⟨hab, ?_, Or.inr rfl⟩
      by_cases hru : s.resumeUid = some uid
      · exact Or.inr ⟨hru, by rw [if_pos hru]⟩
      · exact Or.inl (by rw [if_neg hru])
    | errNoLines msg => exact ⟨hab, Or.inl rfl, Or.inr rfl⟩
    | docRows meta lines =>
      refine ⟨hab, ?_, Or.inr rfl⟩
      by_cases hru : s.resumeUid = some uid
      · exact Or.inr ⟨hru, by rw [if_pos hru]⟩
      · exact Or.inl (by rw [if_neg hru])

theorem processUid_at_s0 (args : SyncArgs) (fetch : String → FetchResult)
    (ef : String → Option String) (now : String) (s : StepState) (s0 : String)
    (hu1 : pyStrip s0 = s0) (hu2 : s0 ≠ "")
    (hab : s.aborted = false) (hmax : args.maxDocs = 0)
    (hor : s.resumeUid = some s0 ∨ s0 ∉ s.existing)
    (hclean : s0 ∉ s.existing → rowsFor s.ws s0 = []) :
    rowsFor (processUid args fetch ef now s s0).ws s0 =
      freshRows fetch ef now s0 := by
  simp only [processUid]
  rw [if_neg (by rw [hab]; simp)]
  rw [if_neg (by rintro ⟨h1, -⟩; exact h1 hmax)]
  by_cases hex : s0 ∈ s.existing
  · have hru : s.resumeUid = some s0 := by
      rcases hor with h | h
      · exact h
      · exact absurd hex h
    rw [if_neg (fun hc => hc.2 (Or.inr hru))]
    rw [if_pos ⟨hex, Or.inr hru⟩]
    have hempty : rowsFor (delete_uid_rows s.ws s0) s0 = [] := by
      rw [rowsFor_delete s.ws s0 s0 hu1 hu2, if_pos rfl]
    cases hdo : docOutcome fetch s0 with
    | auth => rw [freshRows, hdo]; exact hempty
    | errExc msg =>
      rw [freshRows, hdo]
      show rowsFor (append_error_row _ s0 msg now) s0 = _
      rw [append_error_row, rowsFor_append,
        rowsFor_new_rows (mkErrorRow_keys s0 msg now hu1 hu2), if_pos rfl,
        hempty, List.nil_append]
    | errNoLines msg =>
      rw [freshRows, hdo]
      show rowsFor (append_error_row _ s0 msg now) s0 = _
      rw [append_error_row, rowsFor_append,
        rowsFor_new_rows (mkErrorRow_keys s0 msg now hu1 hu2), if_pos rfl,
        hempty, List.nil_append]
    | docRows meta lines =>
      rw [freshRows, hdo]
      show rowsFor (append_line_rows _ s0 ((ef s0).getD "") meta lines now) s0 = _
      rw [append_line_rows, rowsFor_append,
        rowsFor_new_rows (mkLineRow_keys s0 ((ef s0).getD "") meta
          (infer_tipo_documento meta.document_number meta.doc_kind)
          lines now hu1 hu2), if_pos rfl,
        hempty, List.nil_append]
      rfl
  · rw [if_neg (fun hc => hex hc.1)]
    rw [if_neg (fun hc => hex hc.1)]
    have hempty : rowsFor s.ws s0 = [] := hclean hex
    cases hdo : docOutcome fetch s0 with
    | auth => rw [freshRows, hdo]; exact hempty
    | errExc msg =>
      rw [freshRows, hdo]
      show rowsFor (append_error_row _ s0 msg now) s0 = _
      rw [append_error_row, rowsFor_append,
        rowsFor_new_rows (mkErrorRow_keys s0 msg now hu1 hu2), if_pos rfl,
        hempty, List.nil_append]
    | errNoLines msg =>
      rw [freshRows, hdo]
      show rowsFor (append_error_row _ s0 msg now) s0 = _
      rw [append_error_row, rowsFor_append,
        rowsFor_new_rows (mkErrorRow_keys s0 msg now hu1 hu2), if_pos rfl,
        hempty, List.nil_append]
    | docRows meta lines =>
      rw [freshRows, hdo]
      show rowsFor (append_line_rows _ s0 ((ef s0).getD "") meta lines now) s0 = _
      rw [append_line_rows, rowsFor_append,
        rowsFor_new_rows (mkLineRow_keys s0 ((ef s0).getD "") meta
          (infer_tipo_documento meta.document_number meta.doc_kind)
          lines now hu1 hu2), if_pos rfl,
        hempty, List.nil_append]
      rfl

theorem foldl_preserve_s0 (args : SyncArgs) (fetch : String → FetchResult)
    (ef : String → Option String) (now : String) (s0 : String) :
    ∀ (uids : List String) (s : StepState),
    (∀ u ∈ uids, pyStrip u = u ∧ u ≠ "" ∧ u ≠ s0) →
    rowsFor (uids.foldl (processUid args fetch ef now) s).ws s0 =
      rowsFor s.ws s0 := by
  intro uids
  induction uids with
  | nil => intro s _; rfl
  | cons x xs ih =>
    intro s h
    obtain ⟨h1, h2, h3⟩ := h x (by simp)
    rw [List.foldl_cons, ih _ (fun u hu => h u (by simp [hu])),
      processUid_rowsFor_other args fetch ef now s x s0 h1 h2 h3]

theorem foldl_crashed_pre (args : SyncArgs) (fetch : String → FetchResult)
    (ef : String → Option String) (now : String) (s0 : String)
    (hmax : args.maxDocs = 0) (hfetch : ∀ u, fetch u ≠ FetchResult.authFail) :
    ∀ (uids : List String) (s : StepState),
    (∀ u ∈ uids, pyStrip u = u ∧ u ≠ "" ∧ u ≠ s0) →
    s.resumeUid = some s0 → s.aborted = false →
    (uids.foldl (processUid args fetch ef now) s).resumeUid = some s0 ∧
    (uids.foldl (processUid args fetch ef now) s).aborted = false ∧
    rowsFor (uids.foldl (processUid args fetch ef now) s).ws s0 =
      rowsFor s.ws s0 ∧
    (∀ u ∈ s.existing, u ∈ (uids.foldl (processUid args fetch ef now) s).existing) := by
  intro uids
  induction uids with
  | nil => intro s _ hres hab; exact ⟨hres, hab, rfl, fun u hu => hu⟩
  | cons x xs ih =>
    intro s h hres hab
    obtain ⟨h1, h2, h3⟩ := h x (by simp)
    obtain ⟨hab', hres', hex'⟩ := processUid_state args fetch ef now s x hmax
      (docOutcome_ne_auth (hfetch x)) hab
    have hres2 : (processUid args fetch ef now s x).resumeUid = some s0 := by
      rcases hres' with hsame | ⟨heq, -⟩
      · rw [hsame, hres]
      · rw [hres] at heq
        exact absurd (Option.some.inj heq) (fun hh => h3 hh.symm)
    rw [List.foldl_cons]
    obtain ⟨ih1, ih2, ih3, ih4⟩ :=
      ih (processUid args fetch ef now s x) (fun u hu => h u (by simp [hu]))
        hres2 hab'
    refine ⟨ih1, ih2, ?_, ?_⟩
    · rw [ih3, processUid_rowsFor_other args fetch ef now s x s0 h1 h2 h3]
    · intro u hu
      apply ih4
      rcases hex' with he | he
      · rw [he]; exact hu
      · rw [he]; exact mem_addUid.mpr (Or.inr hu)

theorem foldl_clean_pre (args : SyncArgs) (fetch : String → FetchResult)
    (ef : String → Option String) (now : String) (s0 : String)
    (hmax : args.maxDocs = 0) (hfetch : ∀ u, fetch u ≠ FetchResult.authFail) :
    ∀ (uids : List String) (s : StepState),
    (∀ u ∈ uids, pyStrip u = u ∧ u ≠ "" ∧ u ≠ s0) →
    s.resumeUid = none → s.aborted = false → s0 ∉ s.existing →
    (uids.foldl (processUid args fetch ef now) s).resumeUid = none ∧
    (uids.foldl (processUid args fetch ef now) s).aborted = false ∧
    rowsFor (uids.foldl (processUid args fetch ef now) s).ws s0 =
      rowsFor s.ws s0 ∧
    s0 ∉ (uids.foldl (processUid args fetch ef now) s).existing := by
  intro uids
  induction uids with
  | nil => intro s _ hres hab hex; exact ⟨hres, hab, rfl, hex⟩
  | cons x xs ih =>
    intro s h hres hab hex
    obtain ⟨h1, h2, h3⟩ := h x (by simp)
    obtain ⟨hab', hres', hex'⟩ := processUid_state args fetch ef now s x hmax
      (docOutcome_ne_auth (hfetch x)) hab
    have hres2 : (processUid args fetch ef now s x).resumeUid = none := by
      rcases hres' with hsame | ⟨heq, -⟩
      · rw [hsame, hres]
      · rw [hres] at heq; cases heq
    have hex2 : s0 ∉ (processUid args fetch ef now s x).existing := by
      rcases hex' with he | he
      · rw [he]; exact hex
      · rw [he]
        intro hmem
        rcases mem_addUid.mp hmem with rfl | hmem'
        · exact h3 rfl
        · exact hex hmem'
    rw [List.foldl_cons]
    obtain ⟨ih1, ih2, ih3, ih4⟩ :=
      ih (processUid args fetch ef now s x) (fun u hu => h u (by simp [hu]))
        hres2 hab' hex2
    refine ⟨ih1, ih2, ?_, ih4⟩
    rw [ih3, processUid_rowsFor_other args fetch ef now s x s0 h1 h2 h3]

/-- C2: if the ledger's `started_uid` is set and differs from `completed_uid`
(prior crash mid-document, possibly with a partial row-set for that UID in the
table), the next run rewrites that UID from scratch — its final row-set equals
the freshly fetched row-set of the document, which is also exactly what a
clean single-pass run starting from an empty table and a clean ledger
produces for that UID. Hypotheses: the UID is listed again, UIDs are stripped
and non-empty (as `extract_uid_from_item` guarantees), no auth failure aborts
the run, and no `--max-docs` cap is set. -/
theorem c2_resumption_idempotence (args : SyncArgs)
    (listing : List (String × Option String)) (fetch : String → FetchResult)
    (now : String) (t : List Row) (ledger : ResumeState) (s0 : String)
    (hl : ∀ p ∈ listing, pyStrip p.1 = p.1 ∧ p.1 ≠ "")
    (hs0 : s0 ∈ listing.map Prod.fst)
    (hres : compute_resume_uid ledger = some s0)
    (hfetch : ∀ u, fetch u ≠ FetchResult.authFail)
    (hmax : args.maxDocs = 0) :
    rowsFor (mainRun args listing fetch now t ledger).ws s0 =
      freshRows fetch (listingEfdateMap listing) now s0 ∧
    rowsFor (mainRun args listing fetch now [] ({} : ResumeState)).ws s0 =
      freshRows fetch (listingEfdateMap listing) now s0 := by
  have hs0p : pyStrip s0 = s0 ∧ s0 ≠ "" := by
    obtain ⟨p, hp, hpe⟩ := List.mem_map.mp hs0
    rw [← hpe]
    exact hl p hp
  have hbase : ∀ u ∈ sortStrings (dictKeys (listing.map Prod.fst)),
      pyStrip u = u ∧ u ≠ "" := by
    intro u hu
    rw [mem_sortStrings, mem_dictKeys] at hu
    obtain ⟨p, hp, hpe⟩ := List.mem_map.mp hu
    rw [← hpe]
    exact hl p hp
  obtain ⟨l1, l2, hsplit⟩ :=
    List.append_of_mem (mem_sortStrings.mpr (mem_dictKeys.mpr hs0))
  have hnod : (l1 ++ s0 :: l2).Nodup := by
    rw [← hsplit]
    exact nodup_sortStrings nodup_dictKeys
  rw [List.nodup_append] at hnod
  obtain ⟨hnd1, hnd2, hdisj⟩ := hnod
  have hs0l1 : s0 ∉ l1 := fun hm => hdisj hm (List.mem_cons_self _ _)
  have hs0l2 : s0 ∉ l2 := (List.nodup_cons.mp hnd2).1
  have hl1 : ∀ u ∈ l1, pyStrip u = u ∧ u ≠ "" ∧ u ≠ s0 := by
    intro u hu
    have hb := hbase u (by rw [hsplit]; exact List.mem_append.mpr (Or.inl hu))
    exact ⟨hb.1, hb.2, fun he => hs0l1 (he ▸ hu)⟩
  have hl2 : ∀ u ∈ l2, pyStrip u = u ∧ u ≠ "" ∧ u ≠ s0 := by
    intro u hu
    have hb := hbase u (by
      rw [hsplit]
      exact List.mem_append.mpr (Or.inr (List.mem_cons_of_mem _ hu)))
    exact ⟨hb.1, hb.2, fun he => hs0l2 (he ▸ hu)⟩
  constructor
  · simp only [mainRun]
    rw [hsplit, List.foldl_append, List.foldl_cons]
    obtain ⟨pre1, pre2, pre3, pre4⟩ :=
      foldl_crashed_pre args fetch (listingEfdateMap listing) now s0 hmax hfetch
        l1 { ws := backfill_efatura_dates t (listingEfdateMap listing) now
             existing := tableUids t
             resume := ledger
             resumeUid := compute_resume_uid ledger }
        hl1 hres rfl
    rw [foldl_preserve_s0 args fetch (listingEfdateMap listing) now s0 l2 _ hl2]
    apply processUid_at_s0 args fetch (listingEfdateMap listing) now _ s0
      hs0p.1 hs0p.2 pre2 hmax (Or.inl pre1)
    intro hnex
    have hnin : s0 ∉ tableUids t := by
      intro hin
      exact hnex (pre4 s0 hin)
    rw [pre3]
    show rowsFor (backfill_efatura_dates t (listingEfdateMap listing) now) s0 = []
    rw [rowsFor_backfill]
    rw [mem_tableUids] at hnin
    have hnil : rowsFor t s0 = [] := not_not.mp hnin
    rw [hnil]
    rfl
  · simp only [mainRun]
    rw [hsplit, List.foldl_append, List.foldl_cons]
    obtain ⟨pre1, pre2, pre3, pre4⟩ :=
      foldl_clean_pre args fetch (listingEfdateMap listing) now s0 hmax hfetch
        l1 { ws := backfill_efatura_dates [] (listingEfdateMap listing) now
             existing := tableUids []
             resume := ({} : ResumeState)
             resumeUid := compute_resume_uid ({} : ResumeState) }
        hl1 rfl rfl (by simp [tableUids])
    rw [foldl_preserve_s0 args fetch (listingEfdateMap listing) now s0 l2 _ hl2]
    apply processUid_at_s0 args fetch (listingEfdateMap listing) now _ s0
      hs0p.1 hs0p.2 pre2 hmax (Or.inr pre4)
    intro _
    rw [pre3]
    rfl

theorem c2_resumption_idempotence_witness :
    compute_resume_uid c2CrashLedger = some "AB0000000001" ∧
    rowsFor (mainRun {} c8Listing c2Fetch "t" c2PartialTable c2CrashLedger).ws
        "AB0000000001" =
      freshRows c2Fetch (listingEfdateMap c8Listing) "t" "AB0000000001" ∧
    rowsFor (mainRun {} c8Listing c2Fetch "t" [] ({} : ResumeState)).ws
        "AB0000000001" =
      freshRows c2Fetch (listingEfdateMap c8Listing) "t" "AB0000000001" := by
  have hfetch : ∀ u, c2Fetch u ≠ FetchResult.authFail := by
    intro u
    simp only [c2Fetch]
    split <;> simp
  have h := c2_resumption_idempotence {} c8Listing c2Fetch "t" c2PartialTable
    c2CrashLedger "AB0000000001" (by decide) (by decide) (by decide) hfetch rfl
  exact ⟨by decide, h.1, h.2⟩
